import Mathlib

/-!
# Verification of the terrain-generation core of GraphicsP2FlightSim

This file gives a shallow embedding, in Lean 4, of the terrain synthesis
engine of the repository (the `generateTerrain` / `extract*` functions of the
terrain-generation module, and the chunk-store logic `addTerrainChunk` /
`generateNeighboringChunks` of `flight-sim.js`), together with theorems that
settle the specification's claims about it.

Modelling conventions:

* JavaScript numbers are modelled as exact rationals (`ℚ`).  Every value a
  JS float can hold is a dyadic rational, so `ℚ` subsumes the float range;
  rounding is idealised away.  `NaN` does not arise on the executions the
  theorems below talk about (all array reads they depend on are in range).
* A JS array read `a[i]` with `i` out of range yields `undefined`; reading a
  *property of* `undefined` (that is, indexing a missing **row** of the
  2-D height map) throws a `TypeError`.  The embedding therefore returns
  `Except Unit`: `.error ()` models the thrown `TypeError`, while an
  in-row out-of-range read is modelled as `none` (the `undefined` *value*),
  exactly the thing `filterUndefined` in the source screens out.
* `Math.random()` is modelled by an ambient stream `rng : ℕ → ℚ` together
  with a counter that advances once per call, in source evaluation order.
-/

namespace FlightSim

/-! ## Numeric helpers of the terrain-generation module -/

/-- `filterUndefined(array)` — `array.filter(n => n === 0 || n)`.
`none` models the JS `undefined` value and is dropped; every (non-`NaN`)
number satisfies `n === 0 || n`, and `NaN` cannot arise in the `ℚ`
idealisation, so all present values are kept. -/
def filterUndefined (l : List (Option ℚ)) : List ℚ := l.filterMap id

/-- `average(...array)` — sum of the defined values divided by their count.
(When every argument is `undefined` the JS code yields `NaN`; here `0/0 = 0`.
That case is unreachable in the executions analysed below.) -/
def average (l : List (Option ℚ)) : ℚ :=
  let a := filterUndefined l
  a.sum / (a.length : ℚ)

/-- Number of times `p` divides `n`, with structural fuel (`fuel ≥ n`
suffices, since each step at least halves `n`). -/
def factorCountAux (fuel p n : ℕ) : ℕ :=
  match fuel with
  | 0 => 0
  | fuel + 1 =>
    if 2 ≤ p ∧ 2 ≤ n ∧ n % p = 0 then factorCountAux fuel p (n / p) + 1 else 0

/-- Number of times `p` divides `n` (for `p ≥ 2`, `n ≥ 2`). -/
def factorCount (p n : ℕ) : ℕ := factorCountAux n p n

/-- Left-pad a digit string with zeros to length `k`. -/
def padZeros (s : String) (k : ℕ) : String :=
  String.mk (List.replicate (k - s.length) '0') ++ s

/-- JS `Number`-to-`String` conversion for a non-negative rational.
A JS float is a dyadic rational, and for a value exactly representable the
default `toString` prints its exact (terminating) decimal expansion with no
trailing zeros, which is what this computes.  A rational whose denominator
has a prime factor other than 2 or 5 has no terminating decimal expansion
and is *not* a possible JS float value; for totality such values get a
placeholder fraction rendering (never hit by a faithful float trace). -/
def jsNumToStringNN (q : ℚ) : String :=
  let ip : ℕ := q.num.toNat / q.den
  let fracNum : ℕ := q.num.toNat % q.den
  if fracNum = 0 then toString ip
  else
    let a := factorCount 2 q.den
    let b := factorCount 5 q.den
    if q.den = 2 ^ a * 5 ^ b then
      let k := max a b
      toString ip ++ "." ++ padZeros (toString (fracNum * 10 ^ k / q.den)) k
    else
      toString q.num ++ "/" ++ toString q.den

/-- JS `Number`-to-`String` conversion (sign handled as JS does). -/
def jsNumToString (q : ℚ) : String :=
  if q < 0 then "-" ++ jsNumToStringNN (-q) else jsNumToStringNN q

/-- Lexicographic comparison of character sequences by code point (equal to
UTF-16 code-unit order on the ASCII output of `jsNumToString`). -/
def charListLt : List Char → List Char → Bool
  | [], [] => false
  | [], _ :: _ => true
  | _ :: _, [] => false
  | a :: as, b :: bs =>
    if a.toNat < b.toNat then true
    else if b.toNat < a.toNat then false
    else charListLt as bs

/-- The comparison used by JS `Array.prototype.sort()` when no comparator is
given: elements are converted to strings and compared lexicographically by
UTF-16 code units. -/
def jsLe (a b : ℚ) : Bool :=
  !(charListLt (jsNumToString b).toList (jsNumToString a).toList)

/-- Insert into a list sorted by `le`. -/
def insertBy (le : α → α → Bool) (a : α) : List α → List α
  | [] => [a]
  | b :: bs => if le a b then a :: b :: bs else b :: insertBy le a bs

/-- Insertion sort by `le`. -/
def sortBy (le : α → α → Bool) : List α → List α
  | [] => []
  | a :: as => insertBy le a (sortBy le as)

/-- The sort performed by `array.sort()` on a plain JS array of numbers:
lexicographic on the string images (the JS default comparator). -/
def jsSortVals (l : List ℚ) : List ℚ := sortBy jsLe l

/-- The sort performed by `block.sort()` on a `Float32Array`: numeric
ascending (TypedArray sort does **not** stringify); `a` precedes `b` iff
`¬(b < a)`, phrased with the executable comparison `Rat.blt`. -/
def sortRat (l : List ℚ) : List ℚ := sortBy (fun a b => !(Rat.blt b a)) l

/-- `median(...array)` — filters `undefined`, sorts with the **default**
`Array.prototype.sort()` (string comparison!), then takes the middle element,
or the mean of the two middle elements for an even count. -/
def median (l : List (Option ℚ)) : ℚ :=
  let a := filterUndefined l
  let s := jsSortVals a
  if a.length % 2 = 1 then s.getD ((a.length - 1) / 2) 0
  else (s.getD (a.length / 2 - 1) 0 + s.getD (a.length / 2) 0) / 2

/-! ## The 2-D height map and its cell accesses -/

/-- The `map` / height-map: an array of rows (`Float32Array`s in JS). -/
abbrev HeightMap := List (List ℚ)

/-- `m[x][y]` as a JS expression.  A missing **row** (`x` out of range)
makes `m[x]` `undefined` and the subsequent `[y]` throw — modelled as
`.error ()`.  A present row with `y` out of range yields the `undefined`
*value*, modelled as `.ok none`. -/
def readCell (m : HeightMap) (x y : ℤ) : Except Unit (Option ℚ) :=
  if 0 ≤ x ∧ x < (m.length : ℤ) then
    let row := m.getD x.toNat []
    .ok (if 0 ≤ y ∧ y < (row.length : ℤ) then some (row.getD y.toNat 0) else none)
  else .error ()

/-- `m[x][y] = v`.  Writing to a missing row throws (`.error ()`); writing
past the end of a `Float32Array` row is silently ignored, exactly as
`List.set` ignores an out-of-range index. -/
def setCell (m : HeightMap) (x y : ℕ) (v : ℚ) : Except Unit HeightMap :=
  if x < m.length then .ok (m.set x ((m.getD x []).set y v)) else .error ()

/-- Read a batch of cells (used for the arguments of `average`/`median`). -/
def readVals (src : HeightMap) (ps : List (ℤ × ℤ)) : Except Unit (List (Option ℚ)) :=
  ps.mapM (fun p => readCell src p.1 p.2)

/-- Generation state: the height map plus the position in the random
stream (`Math.random()` call counter). -/
structure GenState where
  map : HeightMap
  ctr : ℕ

/-- `rand(scale)` — `Math.random() * scale * 2 - scale`, consuming one draw
of the stream. -/
def randDraw (rng : ℕ → ℚ) (scale : ℚ) (st : GenState) : ℚ × GenState :=
  (rng st.ctr * scale * 2 - scale, ⟨st.map, st.ctr + 1⟩)

/-- The four optional edge constraints of `generateTerrain`. -/
structure Constraints where
  top : Option (List ℚ)
  bottom : Option (List ℚ)
  left : Option (List ℚ)
  right : Option (List ℚ)

/-- The index list of `for (let i = start; i < bound; i += step)`. -/
def stridedLt (start step bound : ℕ) : List ℕ :=
  List.range' start ((bound - start + step - 1) / step) step

/-- The index list of `for (let i = start; i <= bound; i += step)`. -/
def stridedLe (start step bound : ℕ) : List ℕ :=
  stridedLt start step (bound + 1)

/-! ## `generateTerrain` (terrain-generation module)

`size = 2^detail + 1`, `maxIdx = size - 1` (called `max` in the source).
The recursion `divide` always receives a power of two `sz ∣ maxIdx`, so the
`sz / 2` below (exact in the source, where `sz` is a float) is exact here
too on every reachable call. -/

/-- `square(x, y, sz)` — one square step.  (Note the source's second branch
reads `map[x+sz]`, a row past the end; it is unreachable in real calls and
would throw, which the embedding preserves.) -/
def square (m : HeightMap) (maxIdx x y sz : ℕ) : Except Unit ℚ := do
  if (x : ℤ) < (sz : ℤ) then
    let a ← readCell m ((x : ℤ) + sz) ((y : ℤ) - sz)
    let b ← readCell m ((x : ℤ) + sz) ((y : ℤ) + sz)
    pure (average [a, b])
  else if (x : ℤ) > (maxIdx : ℤ) - (sz : ℤ) then
    let a ← readCell m ((x : ℤ) + sz) ((y : ℤ) - sz)
    let b ← readCell m ((x : ℤ) + sz) ((y : ℤ) + sz)
    pure (average [a, b])
  else
    let a ← readCell m ((x : ℤ) - sz) ((y : ℤ) - sz)
    let b ← readCell m ((x : ℤ) + sz) ((y : ℤ) - sz)
    let c ← readCell m ((x : ℤ) + sz) ((y : ℤ) + sz)
    let d ← readCell m ((x : ℤ) - sz) ((y : ℤ) + sz)
    pure (average [a, b, c, d])

/-- `diamond(x, y, sz)` — one diamond step. -/
def diamond (m : HeightMap) (maxIdx x y sz : ℕ) : Except Unit ℚ := do
  if (x : ℤ) < (sz : ℤ) then
    let a ← readCell m (x : ℤ) ((y : ℤ) - sz)
    let b ← readCell m ((x : ℤ) + sz) (y : ℤ)
    let c ← readCell m (x : ℤ) ((y : ℤ) + sz)
    pure (average [a, b, c])
  else if (x : ℤ) > (maxIdx : ℤ) - (sz : ℤ) then
    let a ← readCell m (x : ℤ) ((y : ℤ) - sz)
    let b ← readCell m (x : ℤ) ((y : ℤ) + sz)
    let c ← readCell m ((x : ℤ) - sz) (y : ℤ)
    pure (average [a, b, c])
  else
    let a ← readCell m (x : ℤ) ((y : ℤ) - sz)
    let b ← readCell m ((x : ℤ) + sz) (y : ℤ)
    let c ← readCell m (x : ℤ) ((y : ℤ) + sz)
    let d ← readCell m ((x : ℤ) - sz) (y : ℤ)
    pure (average [a, b, c, d])

/-- Body of the square-pass loop: `map[x][y] = rand(scl) + square(x, y, half)`
(the call to `rand` is evaluated first, as in the source). -/
def squareStep (rng : ℕ → ℚ) (scl : ℚ) (maxIdx half : ℕ) (st : GenState)
    (yx : ℕ × ℕ) : Except Unit GenState := do
  let (r, st1) := randDraw rng scl st
  let s ← square st1.map maxIdx yx.2 yx.1 half
  let m ← setCell st1.map yx.2 yx.1 (r + s)
  pure ⟨m, st1.ctr⟩

/-- The square pass: `for (y = half; y < max; y += sz) for (x = half; x < max; x += sz)`. -/
def squarePass (rng : ℕ → ℚ) (scl : ℚ) (maxIdx half sz : ℕ) (st : GenState) :
    Except Unit GenState :=
  ((stridedLt half sz maxIdx).flatMap
      (fun y => (stridedLt half sz maxIdx).map (fun x => (y, x)))).foldlM
    (squareStep rng scl maxIdx half) st

/-- Body of the diamond-pass loop:
`map[x][y] = (top && x === 0) ? top[y] : (bottom && x === max) ? bottom[y] :
(left && y === max) ? left[x] : (right && y === 0) ? right[x] :
rand(scl) + diamond(x, y, half)`. -/
def diamondStep (rng : ℕ → ℚ) (cs : Constraints) (scl : ℚ) (maxIdx half : ℕ)
    (st : GenState) (yx : ℕ × ℕ) : Except Unit GenState := do
  let y := yx.1
  let x := yx.2
  if cs.top.isSome ∧ x = 0 then
    let m ← setCell st.map x y ((cs.top.getD []).getD y 0)
    pure ⟨m, st.ctr⟩
  else if cs.bottom.isSome ∧ x = maxIdx then
    let m ← setCell st.map x y ((cs.bottom.getD []).getD y 0)
    pure ⟨m, st.ctr⟩
  else if cs.left.isSome ∧ y = maxIdx then
    let m ← setCell st.map x y ((cs.left.getD []).getD x 0)
    pure ⟨m, st.ctr⟩
  else if cs.right.isSome ∧ y = 0 then
    let m ← setCell st.map x y ((cs.right.getD []).getD x 0)
    pure ⟨m, st.ctr⟩
  else
    let (r, st1) := randDraw rng scl st
    let d ← diamond st1.map maxIdx x y half
    let m ← setCell st1.map x y (r + d)
    pure ⟨m, st1.ctr⟩

/-- The diamond pass:
`for (y = 0; y <= max; y += half) for (x = (y + half) % sz; x <= max; x += sz)`. -/
def diamondPass (rng : ℕ → ℚ) (cs : Constraints) (scl : ℚ) (maxIdx half sz : ℕ)
    (st : GenState) : Except Unit GenState :=
  ((stridedLe 0 half maxIdx).flatMap
      (fun y => (stridedLe ((y + half) % sz) sz maxIdx).map (fun x => (y, x)))).foldlM
    (diamondStep rng cs scl maxIdx half) st

/-- `divide(sz)` with structural fuel.  The recursion halves `sz`, so any
`fuel ≥ sz` makes the `0` branch unreachable (see `divideAux_fuel`); the
fuel only makes the recursion structural so that it reduces in the kernel. -/
def divideAux (rng : ℕ → ℚ) (roughness : ℚ) (cs : Constraints) (maxIdx : ℕ) :
    ℕ → ℕ → GenState → Except Unit GenState
  | 0, _, st => pure st
  | fuel + 1, sz, st =>
    let half := sz / 2
    let scl := roughness * (sz : ℚ)
    if half < 1 then pure st
    else do
      let st ← squarePass rng scl maxIdx half sz st
      let st ← diamondPass rng cs scl maxIdx half sz st
      divideAux rng roughness cs maxIdx fuel half st

/-- `divide(sz)` — the recursive square-diamond subdivision. -/
def divide (rng : ℕ → ℚ) (roughness : ℚ) (cs : Constraints) (maxIdx : ℕ)
    (sz : ℕ) (st : GenState) : Except Unit GenState :=
  divideAux rng roughness cs maxIdx sz sz st

/-- The corner-seeding block of `generateTerrain`:
```
map[0][0]     = top ? top[0]       : right ? right[0]   : rand(scale);
map[max][0]   = bottom ? bottom[0] : right ? right[max] : rand(scale);
map[max][max] = bottom ? bottom[max] : left ? left[max] : rand(scale);
map[0][max]   = top ? top[max]     : left ? left[0]     : rand(scale);
```
`rand` is only evaluated (and the stream only advanced) when its branch is
taken. -/
def seedCorners (rng : ℕ → ℚ) (scale : ℚ) (cs : Constraints) (maxIdx : ℕ)
    (st : GenState) : Except Unit GenState := do
  let (v1, st) :=
    match cs.top with
    | some t => (t.getD 0 0, st)
    | none =>
      match cs.right with
      | some r => (r.getD 0 0, st)
      | none => randDraw rng scale st
  let m ← setCell st.map 0 0 v1
  let st : GenState := ⟨m, st.ctr⟩
  let (v2, st) :=
    match cs.bottom with
    | some b => (b.getD 0 0, st)
    | none =>
      match cs.right with
      | some r => (r.getD maxIdx 0, st)
      | none => randDraw rng scale st
  let m ← setCell st.map maxIdx 0 v2
  let st : GenState := ⟨m, st.ctr⟩
  let (v3, st) :=
    match cs.bottom with
    | some b => (b.getD maxIdx 0, st)
    | none =>
      match cs.left with
      | some l => (l.getD maxIdx 0, st)
      | none => randDraw rng scale st
  let m ← setCell st.map maxIdx maxIdx v3
  let st : GenState := ⟨m, st.ctr⟩
  let (v4, st) :=
    match cs.top with
    | some t => (t.getD maxIdx 0, st)
    | none =>
      match cs.left with
      | some l => (l.getD 0 0, st)
      | none => randDraw rng scale st
  let m ← setCell st.map 0 maxIdx v4
  pure ⟨m, st.ctr⟩

/-- The 3×3 block read of the median filter's core, in `cy`,`cx` order.
All nine reads are in range on every reachable call; the JS code copies them
into a `Float32Array` block (so defined values pass through unchanged). -/
def blockRead (src : HeightMap) (y x : ℕ) : Except Unit (List ℚ) := do
  let vs ← readVals src
    ((List.range 3).flatMap (fun cy =>
      (List.range 3).map (fun cx => (((y + cy : ℕ) : ℤ), ((x + cx : ℕ) : ℤ)))))
  pure (vs.map (fun v => v.getD 0))

/-- `median3Filter(src)` — one pass over the pre-smoothing grid into a fresh
`dst`.  The core uses the **numeric** `Float32Array` sort and takes
`block[4]`; corners and edges call `median(...)`, which uses the default
(stringifying) `Array.prototype.sort`. -/
def median3Filter (src : HeightMap) : Except Unit HeightMap := do
  let N := src.length
  let n := N - 1
  let dst : HeightMap := List.replicate N (List.replicate N 0)
  let dst ← (List.range (N - 2)).foldlM (fun dst y =>
    (List.range (N - 2)).foldlM (fun dst x => do
      let block ← blockRead src y x
      setCell dst (y + 1) (x + 1) ((sortRat block).getD 4 0)) dst) dst
  let vs ← readVals src [(0, 0), (1, 0), (0, 1), (1, 1)]
  let dst ← setCell dst 0 0 (median vs)
  let vs ← readVals src [((n : ℤ), 0), ((n : ℤ), 1), ((n : ℤ) - 1, 0), ((n : ℤ) - 1, 1)]
  let dst ← setCell dst n 0 (median vs)
  let vs ← readVals src [(0, (n : ℤ)), (1, (n : ℤ)), (0, (n : ℤ) - 1), (1, (n : ℤ) - 1)]
  let dst ← setCell dst 0 n (median vs)
  let vs ← readVals src
    [((n : ℤ), (n : ℤ)), ((n : ℤ), (n : ℤ) - 1), ((n : ℤ) - 1, (n : ℤ)), ((n : ℤ) - 1, (n : ℤ) - 1)]
  let dst ← setCell dst n n (median vs)
  let dst ← (List.range' 1 (n - 1) 1).foldlM (fun dst (y : ℕ) => do
    let vs ← readVals src
      [((y : ℤ) - 1, 0), ((y : ℤ), 0), ((y : ℤ) + 1, 0),
       ((y : ℤ) - 1, 1), ((y : ℤ), 1), ((y : ℤ) + 1, 1)]
    let dst ← setCell dst y 0 (median vs)
    let vs ← readVals src
      [((y : ℤ) - 1, (n : ℤ)), ((y : ℤ), (n : ℤ)), ((y : ℤ) + 1, (n : ℤ)),
       ((y : ℤ) - 1, (n : ℤ) - 1), ((y : ℤ), (n : ℤ) - 1), ((y : ℤ) + 1, (n : ℤ) - 1)]
    setCell dst y n (median vs)) dst
  let dst ← (List.range' 1 (n - 1) 1).foldlM (fun dst (x : ℕ) => do
    let vs ← readVals src
      [(0, (x : ℤ) - 1), (0, (x : ℤ)), (0, (x : ℤ) + 1),
       (1, (x : ℤ) - 1), (1, (x : ℤ)), (1, (x : ℤ) + 1)]
    let dst ← setCell dst 0 x (median vs)
    let vs ← readVals src
      [((n : ℤ), (x : ℤ) - 1), ((n : ℤ), (x : ℤ)), ((n : ℤ), (x : ℤ) + 1),
       ((n : ℤ) - 1, (x : ℤ) - 1), ((n : ℤ) - 1, (x : ℤ)), ((n : ℤ) - 1, (x : ℤ) + 1)]
    setCell dst n x (median vs)) dst
  pure dst

/-- `if (top) { for (let y = 0; y < size; y++) { smoothed[0][y] = top[y]; } }`
— write a whole row from a constraint array. -/
def writeRow (m : HeightMap) (size r : ℕ) (t : List ℚ) : Except Unit HeightMap :=
  (List.range size).foldlM (fun m y => setCell m r y (t.getD y 0)) m

/-- `if (left) { for (let x = 0; x < size; x++) { smoothed[x][max] = left[x]; } }`
— write a whole column from a constraint array. -/
def writeCol (m : HeightMap) (size c : ℕ) (t : List ℚ) : Except Unit HeightMap :=
  (List.range size).foldlM (fun m x => setCell m x c (t.getD x 0)) m

/-- `if (top) { <row write> }` — the write happens only when the constraint
is present. -/
def writeRowIf (m : HeightMap) (size r : ℕ) (o : Option (List ℚ)) :
    Except Unit HeightMap :=
  match o with
  | some t => writeRow m size r t
  | none => pure m

/-- `if (left) { <column write> }` — the write happens only when the
constraint is present. -/
def writeColIf (m : HeightMap) (size c : ℕ) (o : Option (List ℚ)) :
    Except Unit HeightMap :=
  match o with
  | some t => writeCol m size c t
  | none => pure m

/-- The final re-imposition of the constraints, in source order:
top (row 0), bottom (row max), left (column max), right (column 0). -/
def forceEdges (m : HeightMap) (cs : Constraints) (size maxIdx : ℕ) :
    Except Unit HeightMap := do
  let m ← writeRowIf m size 0 cs.top
  let m ← writeRowIf m size maxIdx cs.bottom
  let m ← writeColIf m size maxIdx cs.left
  writeColIf m size 0 cs.right

/-- `generateTerrain(detail, roughness, {top, bottom, left, right})`.
The map starts as `size` zero-filled `Float32Array`s of length `size`;
corners are seeded, `divide(max)` runs the square-diamond recursion, the
median filter smooths, and the constrained edges are re-imposed. -/
def generateTerrain (detail : ℕ) (roughness : ℚ) (cs : Constraints)
    (rng : ℕ → ℚ) (ctr : ℕ) : Except Unit GenState := do
  let size := 2 ^ detail + 1
  let maxIdx := size - 1
  let st : GenState := ⟨List.replicate size (List.replicate size 0), ctr⟩
  let scale := roughness * (size : ℚ) / 2
  let st ← seedCorners rng scale cs maxIdx st
  let st ← divide rng roughness cs maxIdx maxIdx st
  let smoothed ← median3Filter st.map
  let final ← forceEdges smoothed cs size maxIdx
  pure ⟨final, st.ctr⟩

/-! ## Edge extraction and the chunk store (`flight-sim.js`) -/

/-- `extractTop(terrain)` — the first row. -/
def extractTop (terrain : HeightMap) : List ℚ := terrain.getD 0 []

/-- `extractBottom(terrain)` — the last row. -/
def extractBottom (terrain : HeightMap) : List ℚ :=
  terrain.getD (terrain.length - 1) []

/-- `extractLeft(terrain)` — the **last** column (this codebase's
convention): `terrain.map(row => row[row.length - 1])`. -/
def extractLeft (terrain : HeightMap) : List ℚ :=
  terrain.map (fun row => row.getD (row.length - 1) 0)

/-- `extractRight(terrain)` — the **first** column:
`terrain.map(row => row[0])`. -/
def extractRight (terrain : HeightMap) : List ℚ :=
  terrain.map (fun row => row.getD 0 0)

/-- The chunk store `chunkHeights` (keys `"x,y"` are in bijection with the
integer pairs, so the store is modelled as a map on pairs) together with the
random-stream position. -/
structure SimState where
  chunkHeights : ℤ × ℤ → Option HeightMap
  ctr : ℕ

/-- `addTerrainChunk(x, y)` — return unchanged if the chunk exists, else
resolve the four neighbour edges and generate with `generateTerrain(5, 5, …)`.
(`addTerrainMesh` only builds rendering geometry and never touches the
store, so it has no footprint here.) -/
def addTerrainChunk (rng : ℕ → ℚ) (st : SimState) (x y : ℤ) :
    Except Unit SimState :=
  match st.chunkHeights (x, y) with
  | some _ => .ok st
  | none =>
    let topEdge := (st.chunkHeights (x, y + 1)).map extractBottom
    let bottomEdge := (st.chunkHeights (x, y - 1)).map extractTop
    let leftEdge := (st.chunkHeights (x - 1, y)).map extractRight
    let rightEdge := (st.chunkHeights (x + 1, y)).map extractLeft
    match generateTerrain 5 5 ⟨topEdge, bottomEdge, leftEdge, rightEdge⟩ rng st.ctr with
    | .ok g => .ok ⟨fun k => if k = (x, y) then some g.map else st.chunkHeights k, g.ctr⟩
    | .error e => .error e

/-- The fixed neighbour enumeration order of `flight-sim.js`. -/
def neighborDirections : List (ℤ × ℤ) :=
  [(0, 0), (1, 0), (-1, 0), (0, 1), (0, -1), (1, 1), (-1, -1), (1, -1), (-1, 1)]

/-- `generateNeighboringChunks(x, y)` — the centre chunk first, then the
eight neighbours in the fixed direction order. -/
def generateNeighboringChunks (rng : ℕ → ℚ) (st : SimState) (x y : ℤ) :
    Except Unit SimState := do
  let st ← addTerrainChunk rng st x y
  neighborDirections.foldlM (fun st d => addTerrainChunk rng st (x + d.1) (y + d.2)) st

/-- The all-zero random stream (a concrete `Math.random()` trace used by
the concrete counterexamples below). -/
def rngZero : ℕ → ℚ := fun _ => 0

/-! ## Shape invariant and basic cell lemmas -/

/-- The height map is square of the given side (all rows present with the
right length) — true of the initial `Float32Array` allocation and preserved
by every write. -/
def GoodMap (size : ℕ) (m : HeightMap) : Prop :=
  m.length = size ∧ ∀ r ∈ m, r.length = size

/-- The value at `m[i][j]` (0 for missing cells), the projection the
theorems below are phrased with. -/
def cellAt (m : HeightMap) (i j : ℕ) : ℚ := (m.getD i []).getD j 0

theorem goodMap_replicate (size : ℕ) :
    GoodMap size (List.replicate size (List.replicate size (0 : ℚ))) := by
  constructor
  · simp
  · intro r hr
    simp only [List.eq_of_mem_replicate hr, List.length_replicate]

theorem readCell_ok_of_lt (m : HeightMap) (x y : ℤ) (hx0 : 0 ≤ x)
    (hx : x < (m.length : ℤ)) : ∃ v, readCell m x y = .ok v := by
  rw [readCell, if_pos (And.intro hx0 hx)]
  exact ⟨_, rfl⟩

theorem setCell_eq_of_lt (m : HeightMap) (x y : ℕ) (v : ℚ) (hx : x < m.length) :
    setCell m x y v = .ok (m.set x ((m.getD x []).set y v)) := by
  simp only [setCell, if_pos hx]

theorem goodMap_set (size : ℕ) (m : HeightMap) (x y : ℕ) (v : ℚ)
    (h : GoodMap size m) (hx : x < m.length) :
    GoodMap size (m.set x ((m.getD x []).set y v)) := by
  obtain ⟨hlen, hrows⟩ := h
  constructor
  · simpa using hlen
  · intro r hr
    rcases List.mem_or_eq_of_mem_set hr with h1 | h2
    · exact hrows r h1
    · subst h2
      rw [List.length_set]
      have hg : m.getD x [] = m[x] := List.getD_eq_getElem m [] hx
      rw [hg]
      exact hrows _ (List.getElem_mem hx)

theorem getD_set_list {α : Type} (l : List α) (x : ℕ) (r : α) (i : ℕ) (d : α) :
    (l.set x r).getD i d = if i = x ∧ x < l.length then r else l.getD i d := by
  rw [List.getD_eq_getElem?_getD, List.getD_eq_getElem?_getD, List.getElem?_set]
  by_cases h1 : x = i
  · subst h1
    by_cases h2 : x < l.length
    · simp [h2]
    · simp [h2, List.getElem?_eq_none (by omega : l.length ≤ x)]
  · have h1' : ¬ i = x := fun h => h1 h.symm
    rw [if_neg h1, if_neg (fun hh => h1' hh.1)]

/-- Effect of `setCell` on `cellAt`. -/
theorem cellAt_setCell (m : HeightMap) (x y : ℕ) (v : ℚ) (m' : HeightMap)
    (hx : x < m.length) (h : setCell m x y v = .ok m') (i j : ℕ) :
    cellAt m' i j =
      if i = x ∧ j = y ∧ y < (m.getD x []).length then v else cellAt m i j := by
  rw [setCell_eq_of_lt m x y v hx] at h
  cases h
  unfold cellAt
  rw [getD_set_list]
  by_cases hix : i = x
  · subst hix
    rw [if_pos ⟨rfl, hx⟩, getD_set_list]
    simp only [true_and]
  · rw [if_neg (fun hh => hix hh.1), if_neg (fun hh => hix hh.1)]

/-- Row lengths are untouched by `setCell`. -/
theorem rowLen_setCell (m : HeightMap) (x y : ℕ) (v : ℚ) (m' : HeightMap)
    (hx : x < m.length) (h : setCell m x y v = .ok m') (i : ℕ) :
    (m'.getD i []).length = (m.getD i []).length := by
  rw [setCell_eq_of_lt m x y v hx] at h
  cases h
  rw [getD_set_list]
  by_cases hix : i = x
  · subst hix
    rw [if_pos ⟨rfl, hx⟩, List.length_set]
  · rw [if_neg (fun hh => hix hh.1)]

/-- Reduction of a bind whose first component is already `ok`. -/
theorem bindOk {α β : Type} (a : α) (f : α → Except Unit β) :
    (Except.ok a >>= f : Except Unit β) = f a := rfl

/-- Generic invariant-preservation for a monadic fold in `Except Unit`:
if every step succeeds from an invariant state and preserves the invariant,
so does the whole fold. -/
theorem foldlM_ok {σ α : Type} (P : σ → Prop) (f : σ → α → Except Unit σ) :
    ∀ (l : List α) (st : σ), P st →
      (∀ st' a, a ∈ l → P st' → ∃ st'', f st' a = .ok st'' ∧ P st'') →
      ∃ st'', l.foldlM f st = .ok st'' ∧ P st'' := by
  intro l
  induction l with
  | nil => intro st hP _; exact ⟨st, rfl, hP⟩
  | cons a l ih =>
    intro st hP hstep
    obtain ⟨st1, hok, hP1⟩ := hstep st a (List.mem_cons_self a l) hP
    obtain ⟨st2, hok2, hP2⟩ := ih st1 hP1 (fun s b hb => hstep s b (List.mem_cons_of_mem a hb))
    refine ⟨st2, ?_, hP2⟩
    rw [List.foldlM_cons, hok]
    exact hok2

/-- `readVals` succeeds whenever every requested row index is in range. -/
theorem readVals_ok (src : HeightMap) :
    ∀ (ps : List (ℤ × ℤ)),
      (∀ p ∈ ps, 0 ≤ p.1 ∧ p.1 < (src.length : ℤ)) →
      ∃ vs, readVals src ps = .ok vs := by
  intro ps
  induction ps with
  | nil => intro _; exact ⟨[], rfl⟩
  | cons p ps ih =>
    intro h
    obtain ⟨hp1, hp2⟩ := h p (List.mem_cons_self p ps)
    obtain ⟨v, hv⟩ := readCell_ok_of_lt src p.1 p.2 hp1 hp2
    obtain ⟨vs, hvs⟩ := ih (fun q hq => h q (List.mem_cons_of_mem p hq))
    refine ⟨v :: vs, ?_⟩
    rw [readVals, List.mapM_cons]
    rw [readVals] at hvs
    rw [hv, hvs]
    rfl

/-- Characterisation of membership in the `<`-bounded loop index list. -/
theorem mem_stridedLt {start step bound x : ℕ} (hstep : 0 < step)
    (hx : x ∈ stridedLt start step bound) :
    start ≤ x ∧ x < bound ∧ ∃ i, x = start + step * i := by
  rw [stridedLt, List.mem_range'] at hx
  obtain ⟨i, hi, rfl⟩ := hx
  refine ⟨Nat.le_add_right _ _, ?_, i, rfl⟩
  have h1 : step * ((bound - start + step - 1) / step) ≤ bound - start + step - 1 := by
    rw [Nat.mul_comm]
    exact Nat.div_mul_le_self _ _
  have h2 : step * i + step ≤ step * ((bound - start + step - 1) / step) := by
    have hs := Nat.mul_le_mul_left step (Nat.succ_le_of_lt hi)
    rwa [Nat.mul_succ] at hs
  omega

/-- Characterisation of membership in the `≤`-bounded loop index list. -/
theorem mem_stridedLe {start step bound x : ℕ} (hstep : 0 < step)
    (hx : x ∈ stridedLe start step bound) :
    start ≤ x ∧ x ≤ bound ∧ ∃ i, x = start + step * i := by
  obtain ⟨h1, h2, h3⟩ := mem_stridedLt hstep hx
  exact ⟨h1, by omega, h3⟩

/-! ## No-throw lemmas: every row access of the generator is in range -/

theorem square_ok (m : HeightMap) (maxIdx x y sz : ℕ)
    (hlen : m.length = maxIdx + 1) (hx1 : sz ≤ x) (hx2 : x + sz ≤ maxIdx) :
    ∃ v, square m maxIdx x y sz = .ok v := by
  have hc1 : ¬((x : ℤ) < (sz : ℤ)) := by omega
  have hc2 : ¬((x : ℤ) > (maxIdx : ℤ) - (sz : ℤ)) := by omega
  obtain ⟨a, ha⟩ := readCell_ok_of_lt m ((x : ℤ) - sz) ((y : ℤ) - sz)
    (by omega) (by rw [hlen]; push_cast; omega)
  obtain ⟨b, hb⟩ := readCell_ok_of_lt m ((x : ℤ) + sz) ((y : ℤ) - sz)
    (by omega) (by rw [hlen]; push_cast; omega)
  obtain ⟨c, hc⟩ := readCell_ok_of_lt m ((x : ℤ) + sz) ((y : ℤ) + sz)
    (by omega) (by rw [hlen]; push_cast; omega)
  obtain ⟨d, hd⟩ := readCell_ok_of_lt m ((x : ℤ) - sz) ((y : ℤ) + sz)
    (by omega) (by rw [hlen]; push_cast; omega)
  refine ⟨average [a, b, c, d], ?_⟩
  simp only [square, if_neg hc1, if_neg hc2, ha, hb, hc, hd]
  rfl

theorem diamond_ok (m : HeightMap) (maxIdx x y sz : ℕ)
    (hlen : m.length = maxIdx + 1) (hx : x ≤ maxIdx) (h2sz : 2 * sz ≤ maxIdx) :
    ∃ v, diamond m maxIdx x y sz = .ok v := by
  by_cases hc1 : (x : ℤ) < (sz : ℤ)
  · obtain ⟨a, ha⟩ := readCell_ok_of_lt m (x : ℤ) ((y : ℤ) - sz)
      (by omega) (by rw [hlen]; push_cast; omega)
    obtain ⟨b, hb⟩ := readCell_ok_of_lt m ((x : ℤ) + sz) (y : ℤ)
      (by omega) (by rw [hlen]; push_cast; omega)
    obtain ⟨c, hc⟩ := readCell_ok_of_lt m (x : ℤ) ((y : ℤ) + sz)
      (by omega) (by rw [hlen]; push_cast; omega)
    refine ⟨average [a, b, c], ?_⟩
    simp only [diamond, if_pos hc1, ha, hb, hc]
    rfl
  · by_cases hc2 : (x : ℤ) > (maxIdx : ℤ) - (sz : ℤ)
    · obtain ⟨a, ha⟩ := readCell_ok_of_lt m (x : ℤ) ((y : ℤ) - sz)
        (by omega) (by rw [hlen]; push_cast; omega)
      obtain ⟨b, hb⟩ := readCell_ok_of_lt m (x : ℤ) ((y : ℤ) + sz)
        (by omega) (by rw [hlen]; push_cast; omega)
      obtain ⟨c, hc⟩ := readCell_ok_of_lt m ((x : ℤ) - sz) (y : ℤ)
        (by omega) (by rw [hlen]; push_cast; omega)
      refine ⟨average [a, b, c], ?_⟩
      simp only [diamond, if_neg hc1, if_pos hc2, ha, hb, hc]
      rfl
    · obtain ⟨a, ha⟩ := readCell_ok_of_lt m (x : ℤ) ((y : ℤ) - sz)
        (by omega) (by rw [hlen]; push_cast; omega)
      obtain ⟨b, hb⟩ := readCell_ok_of_lt m ((x : ℤ) + sz) (y : ℤ)
        (by omega) (by rw [hlen]; push_cast; omega)
      obtain ⟨c, hc⟩ := readCell_ok_of_lt m (x : ℤ) ((y : ℤ) + sz)
        (by omega) (by rw [hlen]; push_cast; omega)
      obtain ⟨d, hd⟩ := readCell_ok_of_lt m ((x : ℤ) - sz) (y : ℤ)
        (by omega) (by rw [hlen]; push_cast; omega)
      refine ⟨average [a, b, c, d], ?_⟩
      simp only [diamond, if_neg hc1, if_neg hc2, ha, hb, hc, hd]
      rfl

theorem squarePass_ok (rng : ℕ → ℚ) (scl : ℚ) (maxIdx half sz : ℕ)
    (st : GenState) (hhalf : 0 < half) (hsz : sz = 2 * half)
    (hdvd : sz ∣ maxIdx) (hGood : GoodMap (maxIdx + 1) st.map) :
    ∃ st', squarePass rng scl maxIdx half sz st = .ok st' ∧
      GoodMap (maxIdx + 1) st'.map := by
  obtain ⟨mm, hmm⟩ := hdvd
  have hstep : 0 < sz := by omega
  have hstepAll : ∀ (st' : GenState) (a : ℕ × ℕ),
      a ∈ (stridedLt half sz maxIdx).flatMap
        (fun y => (stridedLt half sz maxIdx).map (fun x => (y, x))) →
      GoodMap (maxIdx + 1) st'.map →
      ∃ st'', squareStep rng scl maxIdx half st' a = .ok st'' ∧
        GoodMap (maxIdx + 1) st''.map := by
    intro st' a ha hP
    obtain ⟨y, hy, x, hx, rfl⟩ : ∃ y ∈ stridedLt half sz maxIdx,
        ∃ x ∈ stridedLt half sz maxIdx, a = (y, x) := by
      rw [List.mem_flatMap] at ha
      obtain ⟨y, hy, hmem⟩ := ha
      rw [List.mem_map] at hmem
      obtain ⟨x, hx, rfl⟩ := hmem
      exact ⟨y, hy, x, hx, rfl⟩
    obtain ⟨hx1, hx2, i, hxi⟩ := mem_stridedLt hstep hx
    have hxh : x + half ≤ maxIdx := by
      have hi : i < mm := by
        have h1 : sz * i < sz * mm := by omega
        exact Nat.lt_of_mul_lt_mul_left h1
      have h2 : sz * (i + 1) ≤ sz * mm := Nat.mul_le_mul_left sz hi
      rw [Nat.mul_succ] at h2
      omega
    obtain ⟨v, hv⟩ := square_ok st'.map maxIdx x y half hP.1 (by omega) hxh
    have hxlt : x < st'.map.length := by
      have := hP.1
      omega
    obtain ⟨m', hm'⟩ : ∃ m',
        setCell st'.map x y (rng st'.ctr * scl * 2 - scl + v) = .ok m' :=
      ⟨_, setCell_eq_of_lt _ _ _ _ hxlt⟩
    refine ⟨⟨m', st'.ctr + 1⟩, ?_, ?_⟩
    · simp only [squareStep, randDraw, hv, bindOk, hm']
      rfl
    · rw [setCell_eq_of_lt _ _ _ _ hxlt] at hm'
      cases hm'
      exact goodMap_set _ _ _ _ _ hP hxlt
  exact foldlM_ok _ _ _ st hGood hstepAll

theorem diamondPass_ok (rng : ℕ → ℚ) (cs : Constraints) (scl : ℚ)
    (maxIdx half sz : ℕ) (st : GenState) (hhalf : 0 < half) (hsz : sz = 2 * half)
    (hdvd : sz ∣ maxIdx) (hmax : 0 < maxIdx) (hGood : GoodMap (maxIdx + 1) st.map) :
    ∃ st', diamondPass rng cs scl maxIdx half sz st = .ok st' ∧
      GoodMap (maxIdx + 1) st'.map := by
  have hstep : 0 < sz := by omega
  have hszle : sz ≤ maxIdx := Nat.le_of_dvd hmax hdvd
  have hstepAll : ∀ (st' : GenState) (a : ℕ × ℕ),
      a ∈ (stridedLe 0 half maxIdx).flatMap
        (fun y => (stridedLe ((y + half) % sz) sz maxIdx).map (fun x => (y, x))) →
      GoodMap (maxIdx + 1) st'.map →
      ∃ st'', diamondStep rng cs scl maxIdx half st' a = .ok st'' ∧
        GoodMap (maxIdx + 1) st''.map := by
    intro st' a ha hP
    obtain ⟨y, hy, x, hx, rfl⟩ : ∃ y ∈ stridedLe 0 half maxIdx,
        ∃ x ∈ stridedLe ((y + half) % sz) sz maxIdx, a = (y, x) := by
      rw [List.mem_flatMap] at ha
      obtain ⟨y, hy, hmem⟩ := ha
      rw [List.mem_map] at hmem
      obtain ⟨x, hx, rfl⟩ := hmem
      exact ⟨y, hy, x, hx, rfl⟩
    obtain ⟨hx1, hx2, i, hxi⟩ := mem_stridedLe hstep hx
    have hxlt : x < st'.map.length := by
      have := hP.1
      omega
    have hsetOk : ∀ v : ℚ, ∃ m', setCell st'.map x y v = .ok m' ∧
        GoodMap (maxIdx + 1) m' := by
      intro v
      exact ⟨_, setCell_eq_of_lt _ _ _ _ hxlt, goodMap_set _ _ _ _ _ hP hxlt⟩
    simp only [diamondStep]
    by_cases c1 : cs.top.isSome ∧ x = 0
    · obtain ⟨m', hm', hg⟩ := hsetOk ((cs.top.getD []).getD y 0)
      refine ⟨⟨m', st'.ctr⟩, ?_, hg⟩
      rw [if_pos c1, hm']
      rfl
    rw [if_neg c1]
    by_cases c2 : cs.bottom.isSome ∧ x = maxIdx
    · obtain ⟨m', hm', hg⟩ := hsetOk ((cs.bottom.getD []).getD y 0)
      refine ⟨⟨m', st'.ctr⟩, ?_, hg⟩
      rw [if_pos c2, hm']
      rfl
    rw [if_neg c2]
    by_cases c3 : cs.left.isSome ∧ y = maxIdx
    · obtain ⟨m', hm', hg⟩ := hsetOk ((cs.left.getD []).getD x 0)
      refine ⟨⟨m', st'.ctr⟩, ?_, hg⟩
      rw [if_pos c3, hm']
      rfl
    rw [if_neg c3]
    by_cases c4 : cs.right.isSome ∧ y = 0
    · obtain ⟨m', hm', hg⟩ := hsetOk ((cs.right.getD []).getD x 0)
      refine ⟨⟨m', st'.ctr⟩, ?_, hg⟩
      rw [if_pos c4, hm']
      rfl
    rw [if_neg c4]
    obtain ⟨v, hv⟩ := diamond_ok st'.map maxIdx x y half hP.1 (by omega) (by omega)
    obtain ⟨m', hm', hg⟩ := hsetOk (rng st'.ctr * scl * 2 - scl + v)
    refine ⟨⟨m', st'.ctr + 1⟩, ?_, hg⟩
    simp only [randDraw, hv, bindOk, hm']
    rfl
  exact foldlM_ok _ _ _ st hGood hstepAll

theorem divideAux_ok (rng : ℕ → ℚ) (roughness : ℚ) (cs : Constraints)
    (maxIdx : ℕ) (hmax : 0 < maxIdx) :
    ∀ (fuel sz : ℕ) (st : GenState), sz ≤ fuel → (∃ j, sz = 2 ^ j) →
      sz ∣ maxIdx → GoodMap (maxIdx + 1) st.map →
      ∃ st', divideAux rng roughness cs maxIdx fuel sz st = .ok st' ∧
        GoodMap (maxIdx + 1) st'.map := by
  intro fuel
  induction fuel with
  | zero =>
    intro sz st _ _ _ hG
    exact ⟨st, rfl, hG⟩
  | succ fuel ih =>
    intro sz st hle hpow hdvd hG
    obtain ⟨j, rfl⟩ := hpow
    by_cases hhalf : 2 ^ j / 2 < 1
    · refine ⟨st, ?_, hG⟩
      simp only [divideAux]
      rw [if_pos hhalf]
      rfl
    · have hj : j ≠ 0 := by
        intro h
        subst h
        omega
      obtain ⟨j', rfl⟩ : ∃ j', j = j' + 1 := ⟨j - 1, by omega⟩
      have hpow2 : (2 : ℕ) ^ (j' + 1) = 2 * 2 ^ j' := by
        rw [pow_succ]
        ring
      have hhalfeq : 2 ^ (j' + 1) / 2 = 2 ^ j' := by omega
      have hpos : 0 < 2 ^ j' := Nat.pos_pow_of_pos j' (by omega)
      have hdvd' : (2 : ℕ) ^ j' ∣ maxIdx :=
        dvd_trans (Dvd.intro 2 (by omega)) hdvd
      obtain ⟨st1, hs1, hG1⟩ := squarePass_ok rng (roughness * ((2 : ℕ) ^ (j' + 1) : ℚ))
        maxIdx (2 ^ j') (2 ^ (j' + 1)) st hpos (by omega) hdvd hG
      obtain ⟨st2, hs2, hG2⟩ := diamondPass_ok rng cs (roughness * ((2 : ℕ) ^ (j' + 1) : ℚ))
        maxIdx (2 ^ j') (2 ^ (j' + 1)) st1 hpos (by omega) hdvd hmax hG1
      obtain ⟨st3, hs3, hG3⟩ := ih (2 ^ j') st2 (by omega) ⟨j', rfl⟩ hdvd' hG2
      refine ⟨st3, ?_, hG3⟩
      simp only [divideAux]
      rw [if_neg hhalf]
      simp only [Nat.cast_pow, Nat.cast_ofNat] at hs1 hs2 ⊢
      simp only [hhalfeq, hs1, bindOk, hs2, hs3]

/-- `divide max` (as called by `generateTerrain`) never dereferences a
missing row and preserves the square shape. -/
theorem divide_ok (rng : ℕ → ℚ) (roughness : ℚ) (cs : Constraints)
    (detail : ℕ) (st : GenState) (hG : GoodMap (2 ^ detail + 1) st.map) :
    ∃ st', divide rng roughness cs (2 ^ detail) (2 ^ detail) st = .ok st' ∧
      GoodMap (2 ^ detail + 1) st'.map := by
  have hmax : 0 < 2 ^ detail := Nat.pos_pow_of_pos detail (by omega)
  have h := divideAux_ok rng roughness cs (2 ^ detail) hmax (2 ^ detail) (2 ^ detail)
    st le_rfl ⟨detail, rfl⟩ dvd_rfl hG
  exact h

theorem seedCorners_ok (rng : ℕ → ℚ) (scale : ℚ) (cs : Constraints)
    (maxIdx : ℕ) (st : GenState) (hG : GoodMap (maxIdx + 1) st.map) :
    ∃ st', seedCorners rng scale cs maxIdx st = .ok st' ∧
      GoodMap (maxIdx + 1) st'.map := by
  have h0 : 0 < st.map.length := by
    have := hG.1
    omega
  have hmx : maxIdx < st.map.length := by
    have := hG.1
    omega
  rcases cs with ⟨t, b, l, r⟩
  rcases t with _ | t <;> rcases b with _ | b <;> rcases l with _ | l <;>
    rcases r with _ | r <;>
  · simp only [seedCorners, randDraw, setCell, List.length_set, h0, hmx,
      if_true, bindOk]
    refine ⟨_, rfl, ?_⟩
    refine goodMap_set _ _ _ _ _
      (goodMap_set _ _ _ _ _
        (goodMap_set _ _ _ _ _
          (goodMap_set _ _ _ _ _ hG h0) ?_) ?_) ?_ <;>
      simp [List.length_set, h0, hmx]

theorem median3Filter_ok (src : HeightMap) (h2 : 2 ≤ src.length) :
    ∃ dst, median3Filter src = .ok dst ∧ GoodMap src.length dst := by
  set N := src.length with hN
  have hcast : (0 : ℤ) ≤ (N : ℤ) - 1 - 1 + 1 := by omega
  -- the nested core fold
  have hcore : ∀ dst : HeightMap, GoodMap N dst →
      ∃ dst', (List.range (N - 2)).foldlM (fun dst y =>
        (List.range (N - 2)).foldlM (fun dst x => do
          let block ← blockRead src y x
          setCell dst (y + 1) (x + 1) ((sortRat block).getD 4 0)) dst) dst
        = .ok dst' ∧ GoodMap N dst' := by
    intro dst hG
    apply foldlM_ok (fun d => GoodMap N d) _ _ _ hG
    intro d y hy hGd
    apply foldlM_ok (fun d => GoodMap N d) _ _ _ hGd
    intro d' x hx hGd'
    rw [List.mem_range] at hy hx
    obtain ⟨vs, hvs⟩ := readVals_ok src
      ((List.range 3).flatMap (fun cy =>
        (List.range 3).map (fun cx => (((y + cy : ℕ) : ℤ), ((x + cx : ℕ) : ℤ)))))
      (by
        intro p hp
        rw [List.mem_flatMap] at hp
        obtain ⟨cy, hcy, hp⟩ := hp
        rw [List.mem_map] at hp
        obtain ⟨cx, hcx, rfl⟩ := hp
        rw [List.mem_range] at hcy hcx
        constructor
        · omega
        · push_cast
          omega)
    have hylt : y + 1 < d'.length := by
      have := hGd'.1
      omega
    have heq : (do
        let block ← blockRead src y x
        setCell d' (y + 1) (x + 1) ((sortRat block).getD 4 0))
        = .ok (d'.set (y + 1) ((d'.getD (y + 1) []).set (x + 1)
            ((sortRat (vs.map (fun v => v.getD 0))).getD 4 0))) := by
      simp only [blockRead, hvs, bindOk, setCell_eq_of_lt _ _ _ _ hylt]
      rfl
    exact ⟨_, heq, goodMap_set _ _ _ _ _ hGd' hylt⟩
  -- corner and edge reads are in range
  have hrv4a := readVals_ok src [(0, 0), (1, 0), (0, 1), (1, 1)]
    (by
      intro p hp
      simp only [List.mem_cons, List.not_mem_nil, or_false] at hp
      rcases hp with rfl | rfl | rfl | rfl <;> simp <;> omega)
  obtain ⟨v1, hv1⟩ := hrv4a
  have hrv4b := readVals_ok src
    [((N - 1 : ℕ), 0), ((N - 1 : ℕ), 1), (((N - 1 : ℕ) : ℤ) - 1, 0), (((N - 1 : ℕ) : ℤ) - 1, 1)]
    (by
      intro p hp
      simp only [List.mem_cons, List.not_mem_nil, or_false] at hp
      rcases hp with rfl | rfl | rfl | rfl <;> constructor <;> push_cast <;> omega)
  obtain ⟨v2, hv2⟩ := hrv4b
  have hrv4c := readVals_ok src
    [(0, (N - 1 : ℕ)), (1, (N - 1 : ℕ)), (0, ((N - 1 : ℕ) : ℤ) - 1), (1, ((N - 1 : ℕ) : ℤ) - 1)]
    (by
      intro p hp
      simp only [List.mem_cons, List.not_mem_nil, or_false] at hp
      rcases hp with rfl | rfl | rfl | rfl <;> constructor <;> push_cast <;> omega)
  obtain ⟨v3, hv3⟩ := hrv4c
  have hrv4d := readVals_ok src
    [((N - 1 : ℕ), (N - 1 : ℕ)), ((N - 1 : ℕ), ((N - 1 : ℕ) : ℤ) - 1),
     (((N - 1 : ℕ) : ℤ) - 1, (N - 1 : ℕ)), (((N - 1 : ℕ) : ℤ) - 1, ((N - 1 : ℕ) : ℤ) - 1)]
    (by
      intro p hp
      simp only [List.mem_cons, List.not_mem_nil, or_false] at hp
      rcases hp with rfl | rfl | rfl | rfl <;> constructor <;> push_cast <;> omega)
  obtain ⟨v4, hv4⟩ := hrv4d
  -- the two edge loops
  have hedgeY : ∀ d : HeightMap, GoodMap N d →
      ∃ d', (List.range' 1 (N - 1 - 1) 1).foldlM (fun d (y : ℕ) => do
          let vs ← readVals src
            [((y : ℤ) - 1, 0), ((y : ℤ), 0), ((y : ℤ) + 1, 0),
             ((y : ℤ) - 1, 1), ((y : ℤ), 1), ((y : ℤ) + 1, 1)]
          let d ← setCell d y 0 (median vs)
          let vs ← readVals src
            [((y : ℤ) - 1, ((N - 1 : ℕ) : ℤ)), ((y : ℤ), ((N - 1 : ℕ) : ℤ)),
             ((y : ℤ) + 1, ((N - 1 : ℕ) : ℤ)),
             ((y : ℤ) - 1, ((N - 1 : ℕ) : ℤ) - 1), ((y : ℤ), ((N - 1 : ℕ) : ℤ) - 1),
             ((y : ℤ) + 1, ((N - 1 : ℕ) : ℤ) - 1)]
          setCell d y (N - 1) (median vs)) d = .ok d' ∧ GoodMap N d' := by
    intro d hG
    apply foldlM_ok (fun d => GoodMap N d) _ _ _ hG
    intro d' y hy hGd'
    rw [List.mem_range'] at hy
    obtain ⟨i, hi, rfl⟩ := hy
    obtain ⟨w1, hw1⟩ := readVals_ok src
      [(((1 + 1 * i : ℕ) : ℤ) - 1, 0), (((1 + 1 * i : ℕ) : ℤ), 0), (((1 + 1 * i : ℕ) : ℤ) + 1, 0),
       (((1 + 1 * i : ℕ) : ℤ) - 1, 1), (((1 + 1 * i : ℕ) : ℤ), 1), (((1 + 1 * i : ℕ) : ℤ) + 1, 1)]
      (by
        intro p hp
        simp only [List.mem_cons, List.not_mem_nil, or_false] at hp
        rcases hp with rfl | rfl | rfl | rfl | rfl | rfl <;> constructor <;> push_cast <;> omega)
    obtain ⟨w2, hw2⟩ := readVals_ok src
      [(((1 + 1 * i : ℕ) : ℤ) - 1, ((N - 1 : ℕ) : ℤ)), (((1 + 1 * i : ℕ) : ℤ), ((N - 1 : ℕ) : ℤ)),
       (((1 + 1 * i : ℕ) : ℤ) + 1, ((N - 1 : ℕ) : ℤ)),
       (((1 + 1 * i : ℕ) : ℤ) - 1, ((N - 1 : ℕ) : ℤ) - 1), (((1 + 1 * i : ℕ) : ℤ), ((N - 1 : ℕ) : ℤ) - 1),
       (((1 + 1 * i : ℕ) : ℤ) + 1, ((N - 1 : ℕ) : ℤ) - 1)]
      (by
        intro p hp
        simp only [List.mem_cons, List.not_mem_nil, or_false] at hp
        rcases hp with rfl | rfl | rfl | rfl | rfl | rfl <;> constructor <;> push_cast <;> omega)
    have hylt : 1 + 1 * i < d'.length := by
      have := hGd'.1
      omega
    have hylt2 : 1 + 1 * i <
        (d'.set (1 + 1 * i) ((d'.getD (1 + 1 * i) []).set 0 (median w1))).length := by
      simp only [List.length_set]
      exact hylt
    have heq : (do
        let vs ← readVals src
          [(((1 + 1 * i : ℕ) : ℤ) - 1, 0), (((1 + 1 * i : ℕ) : ℤ), 0), (((1 + 1 * i : ℕ) : ℤ) + 1, 0),
           (((1 + 1 * i : ℕ) : ℤ) - 1, 1), (((1 + 1 * i : ℕ) : ℤ), 1), (((1 + 1 * i : ℕ) : ℤ) + 1, 1)]
        let d ← setCell d' (1 + 1 * i) 0 (median vs)
        let vs ← readVals src
          [(((1 + 1 * i : ℕ) : ℤ) - 1, ((N - 1 : ℕ) : ℤ)), (((1 + 1 * i : ℕ) : ℤ), ((N - 1 : ℕ) : ℤ)),
           (((1 + 1 * i : ℕ) : ℤ) + 1, ((N - 1 : ℕ) : ℤ)),
           (((1 + 1 * i : ℕ) : ℤ) - 1, ((N - 1 : ℕ) : ℤ) - 1), (((1 + 1 * i : ℕ) : ℤ), ((N - 1 : ℕ) : ℤ) - 1),
           (((1 + 1 * i : ℕ) : ℤ) + 1, ((N - 1 : ℕ) : ℤ) - 1)]
        setCell d (1 + 1 * i) (N - 1) (median vs)) = .ok
          ((d'.set (1 + 1 * i) ((d'.getD (1 + 1 * i) []).set 0 (median w1))).set (1 + 1 * i)
            (((d'.set (1 + 1 * i) ((d'.getD (1 + 1 * i) []).set 0 (median w1))).getD (1 + 1 * i) []).set
              (N - 1) (median w2))) := by
      simp only [hw1, bindOk, setCell_eq_of_lt _ _ _ _ hylt, hw2,
        setCell_eq_of_lt _ _ _ _ hylt2]
    exact ⟨_, heq, goodMap_set _ _ _ _ _ (goodMap_set _ _ _ _ _ hGd' hylt) hylt2⟩
  have hedgeX : ∀ d : HeightMap, GoodMap N d →
      ∃ d', (List.range' 1 (N - 1 - 1) 1).foldlM (fun d (x : ℕ) => do
          let vs ← readVals src
            [(0, (x : ℤ) - 1), (0, (x : ℤ)), (0, (x : ℤ) + 1),
             (1, (x : ℤ) - 1), (1, (x : ℤ)), (1, (x : ℤ) + 1)]
          let d ← setCell d 0 x (median vs)
          let vs ← readVals src
            [(((N - 1 : ℕ) : ℤ), (x : ℤ) - 1), (((N - 1 : ℕ) : ℤ), (x : ℤ)),
             (((N - 1 : ℕ) : ℤ), (x : ℤ) + 1),
             (((N - 1 : ℕ) : ℤ) - 1, (x : ℤ) - 1), (((N - 1 : ℕ) : ℤ) - 1, (x : ℤ)),
             (((N - 1 : ℕ) : ℤ) - 1, (x : ℤ) + 1)]
          setCell d (N - 1) x (median vs)) d = .ok d' ∧ GoodMap N d' := by
    intro d hG
    apply foldlM_ok (fun d => GoodMap N d) _ _ _ hG
    intro d' x hx hGd'
    rw [List.mem_range'] at hx
    obtain ⟨i, hi, rfl⟩ := hx
    obtain ⟨w1, hw1⟩ := readVals_ok src
      [(0, ((1 + 1 * i : ℕ) : ℤ) - 1), (0, ((1 + 1 * i : ℕ) : ℤ)), (0, ((1 + 1 * i : ℕ) : ℤ) + 1),
       (1, ((1 + 1 * i : ℕ) : ℤ) - 1), (1, ((1 + 1 * i : ℕ) : ℤ)), (1, ((1 + 1 * i : ℕ) : ℤ) + 1)]
      (by
        intro p hp
        simp only [List.mem_cons, List.not_mem_nil, or_false] at hp
        rcases hp with rfl | rfl | rfl | rfl | rfl | rfl <;> constructor <;> push_cast <;> omega)
    obtain ⟨w2, hw2⟩ := readVals_ok src
      [(((N - 1 : ℕ) : ℤ), ((1 + 1 * i : ℕ) : ℤ) - 1), (((N - 1 : ℕ) : ℤ), ((1 + 1 * i : ℕ) : ℤ)),
       (((N - 1 : ℕ) : ℤ), ((1 + 1 * i : ℕ) : ℤ) + 1),
       (((N - 1 : ℕ) : ℤ) - 1, ((1 + 1 * i : ℕ) : ℤ) - 1), (((N - 1 : ℕ) : ℤ) - 1, ((1 + 1 * i : ℕ) : ℤ)),
       (((N - 1 : ℕ) : ℤ) - 1, ((1 + 1 * i : ℕ) : ℤ) + 1)]
      (by
        intro p hp
        simp only [List.mem_cons, List.not_mem_nil, or_false] at hp
        rcases hp with rfl | rfl | rfl | rfl | rfl | rfl <;> constructor <;> push_cast <;> omega)
    have h0lt : 0 < d'.length := by
      have := hGd'.1
      omega
    have hnlt : N - 1 <
        (d'.set 0 ((d'.getD 0 []).set (1 + 1 * i) (median w1))).length := by
      simp only [List.length_set]
      have := hGd'.1
      omega
    have heq : (do
        let vs ← readVals src
          [(0, ((1 + 1 * i : ℕ) : ℤ) - 1), (0, ((1 + 1 * i : ℕ) : ℤ)), (0, ((1 + 1 * i : ℕ) : ℤ) + 1),
           (1, ((1 + 1 * i : ℕ) : ℤ) - 1), (1, ((1 + 1 * i : ℕ) : ℤ)), (1, ((1 + 1 * i : ℕ) : ℤ) + 1)]
        let d ← setCell d' 0 (1 + 1 * i) (median vs)
        let vs ← readVals src
          [(((N - 1 : ℕ) : ℤ), ((1 + 1 * i : ℕ) : ℤ) - 1), (((N - 1 : ℕ) : ℤ), ((1 + 1 * i : ℕ) : ℤ)),
           (((N - 1 : ℕ) : ℤ), ((1 + 1 * i : ℕ) : ℤ) + 1),
           (((N - 1 : ℕ) : ℤ) - 1, ((1 + 1 * i : ℕ) : ℤ) - 1), (((N - 1 : ℕ) : ℤ) - 1, ((1 + 1 * i : ℕ) : ℤ)),
           (((N - 1 : ℕ) : ℤ) - 1, ((1 + 1 * i : ℕ) : ℤ) + 1)]
        setCell d (N - 1) (1 + 1 * i) (median vs)) = .ok
          ((d'.set 0 ((d'.getD 0 []).set (1 + 1 * i) (median w1))).set (N - 1)
            (((d'.set 0 ((d'.getD 0 []).set (1 + 1 * i) (median w1))).getD (N - 1) []).set
              (1 + 1 * i) (median w2))) := by
      simp only [hw1, bindOk, setCell_eq_of_lt _ _ _ _ h0lt, hw2,
        setCell_eq_of_lt _ _ _ _ hnlt]
    exact ⟨_, heq, goodMap_set _ _ _ _ _ (goodMap_set _ _ _ _ _ hGd' h0lt) hnlt⟩
  -- assemble the stages
  obtain ⟨dc, hdc, hGc⟩ := hcore (List.replicate N (List.replicate N 0)) (goodMap_replicate N)
  have hlc : dc.length = N := hGc.1
  have e1 := setCell_eq_of_lt dc 0 0 (median v1) (by omega)
  have g1 : GoodMap N (dc.set 0 ((dc.getD 0 []).set 0 (median v1))) :=
    goodMap_set _ _ _ _ _ hGc (by omega)
  have e2 := setCell_eq_of_lt _ (N - 1) 0 (median v2)
    (by rw [g1.1]; omega)
  have g2 := goodMap_set _ _ (N - 1) 0 (median v2) g1 (by rw [g1.1]; omega)
  have e3 := setCell_eq_of_lt _ 0 (N - 1) (median v3) (by rw [g2.1]; omega)
  have g3 := goodMap_set _ _ 0 (N - 1) (median v3) g2 (by rw [g2.1]; omega)
  have e4 := setCell_eq_of_lt _ (N - 1) (N - 1) (median v4) (by rw [g3.1]; omega)
  have g4 := goodMap_set _ _ (N - 1) (N - 1) (median v4) g3 (by rw [g3.1]; omega)
  obtain ⟨d5, hedge1, hG5⟩ := hedgeY _ g4
  obtain ⟨d6, hedge2, hG6⟩ := hedgeX _ hG5
  refine ⟨d6, ?_, hG6⟩
  simp only [median3Filter]
  rw [← hN]
  simp only [hdc, bindOk, hv1, e1, hv2, e2, hv3, e3, hv4, e4, hedge1, hedge2]
  rfl

theorem rowLen_of_good (size : ℕ) (m : HeightMap) (i : ℕ)
    (h : GoodMap size m) (hi : i < size) : (m.getD i []).length = size := by
  have hlen : i < m.length := by
    have := h.1
    omega
  have hg : m.getD i [] = m[i] := List.getD_eq_getElem m [] hlen
  rw [hg]
  exact h.2 _ (List.getElem_mem hlen)

theorem writeRow_fold_spec (size r : ℕ) (t : List ℚ) :
    ∀ (l : List ℕ) (m : HeightMap), GoodMap size m → r < size →
      (∀ y ∈ l, y < size) →
      ∃ m', l.foldlM (fun m y => setCell m r y (t.getD y 0)) m = .ok m' ∧
        GoodMap size m' ∧
        ∀ i j, cellAt m' i j = if i = r ∧ j ∈ l then t.getD j 0 else cellAt m i j := by
  intro l
  induction l with
  | nil =>
    intro m hG hr _
    refine ⟨m, rfl, hG, ?_⟩
    intro i j
    simp
  | cons y l ih =>
    intro m hG hr hl
    have hrlt : r < m.length := by
      have := hG.1
      omega
    have e1 := setCell_eq_of_lt m r y (t.getD y 0) hrlt
    have g1 := goodMap_set size m r y (t.getD y 0) hG hrlt
    obtain ⟨m', hm', hG', hcell⟩ := ih _ g1 hr
      (fun z hz => hl z (List.mem_cons_of_mem y hz))
    refine ⟨m', ?_, hG', ?_⟩
    · rw [List.foldlM_cons, e1]
      exact hm'
    · intro i j
      rw [hcell i j, cellAt_setCell m r y (t.getD y 0) _ hrlt e1 i j]
      have hrow : (m.getD r []).length = size := rowLen_of_good size m r hG hr
      have hy : y < size := hl y (List.mem_cons_self y l)
      by_cases hir : i = r
      · subst hir
        by_cases hjl : j ∈ l
        · rw [if_pos ⟨rfl, hjl⟩, if_pos ⟨rfl, List.mem_cons_of_mem y hjl⟩]
        · by_cases hjy : j = y
          · subst hjy
            rw [if_neg (fun hh => hjl hh.2),
              if_pos ⟨rfl, rfl, by rw [hrow]; exact hy⟩,
              if_pos ⟨rfl, List.mem_cons_self j l⟩]
          · rw [if_neg (fun hh => hjl hh.2), if_neg (fun hh => hjy hh.2.1),
              if_neg (fun hh => (List.mem_cons.mp hh.2).elim hjy hjl)]
      · rw [if_neg (fun hh => hir hh.1), if_neg (fun hh => hir hh.1),
          if_neg (fun hh => hir hh.1)]

theorem writeCol_fold_spec (size c : ℕ) (t : List ℚ) (hc : c < size) :
    ∀ (l : List ℕ) (m : HeightMap), GoodMap size m →
      (∀ x ∈ l, x < size) →
      ∃ m', l.foldlM (fun m x => setCell m x c (t.getD x 0)) m = .ok m' ∧
        GoodMap size m' ∧
        ∀ i j, cellAt m' i j = if j = c ∧ i ∈ l then t.getD i 0 else cellAt m i j := by
  intro l
  induction l with
  | nil =>
    intro m hG _
    refine ⟨m, rfl, hG, ?_⟩
    intro i j
    simp
  | cons x l ih =>
    intro m hG hl
    have hxlt : x < m.length := by
      have := hG.1
      have := hl x (List.mem_cons_self x l)
      omega
    have e1 := setCell_eq_of_lt m x c (t.getD x 0) hxlt
    have g1 := goodMap_set size m x c (t.getD x 0) hG hxlt
    obtain ⟨m', hm', hG', hcell⟩ := ih _ g1
      (fun z hz => hl z (List.mem_cons_of_mem x hz))
    refine ⟨m', ?_, hG', ?_⟩
    · rw [List.foldlM_cons, e1]
      exact hm'
    · intro i j
      rw [hcell i j, cellAt_setCell m x c (t.getD x 0) _ hxlt e1 i j]
      have hrow : (m.getD x []).length = size :=
        rowLen_of_good size m x hG (hl x (List.mem_cons_self x l))
      by_cases hjc : j = c
      · subst hjc
        by_cases hil : i ∈ l
        · rw [if_pos ⟨rfl, hil⟩, if_pos ⟨rfl, List.mem_cons_of_mem x hil⟩]
        · by_cases hix : i = x
          · subst hix
            rw [if_neg (fun hh => hil hh.2),
              if_pos ⟨rfl, rfl, by rw [hrow]; exact hc⟩,
              if_pos ⟨rfl, List.mem_cons_self i l⟩]
          · rw [if_neg (fun hh => hil hh.2), if_neg (fun hh => hix hh.1),
              if_neg (fun hh => (List.mem_cons.mp hh.2).elim hix hil)]
      · rw [if_neg (fun hh => hjc hh.1), if_neg (fun hh => hjc hh.2.1),
          if_neg (fun hh => hjc hh.1)]

theorem writeRow_spec (m : HeightMap) (size r : ℕ) (t : List ℚ)
    (hG : GoodMap size m) (hr : r < size) :
    ∃ m', writeRow m size r t = .ok m' ∧ GoodMap size m' ∧
      ∀ i j, cellAt m' i j = if i = r ∧ j < size then t.getD j 0 else cellAt m i j := by
  obtain ⟨m', hm', hG', hcell⟩ := writeRow_fold_spec size r t (List.range size) m hG hr
    (fun y hy => List.mem_range.mp hy)
  refine ⟨m', hm', hG', ?_⟩
  intro i j
  rw [hcell i j]
  simp [List.mem_range]

theorem writeCol_spec (m : HeightMap) (size c : ℕ) (t : List ℚ)
    (hG : GoodMap size m) (hc : c < size) :
    ∃ m', writeCol m size c t = .ok m' ∧ GoodMap size m' ∧
      ∀ i j, cellAt m' i j = if j = c ∧ i < size then t.getD i 0 else cellAt m i j := by
  obtain ⟨m', hm', hG', hcell⟩ := writeCol_fold_spec size c t hc (List.range size) m hG
    (fun x hx => List.mem_range.mp hx)
  refine ⟨m', hm', hG', ?_⟩
  intro i j
  rw [hcell i j]
  simp [List.mem_range]

/-- Derived description of the final constraint re-imposition: the value the
returned cell `[i][j]` ends up with, given its post-smoothing value `orig`.
The four edge writes happen in source order top, bottom, left, right, so a
later write wins at a shared cell: right (column 0) over everything, then
left (column `max`), then bottom (row `max`), then top (row 0). -/
def forcedValue (cs : Constraints) (size maxIdx : ℕ) (orig : ℚ) (i j : ℕ) : ℚ :=
  if cs.right.isSome ∧ j = 0 ∧ i < size then (cs.right.getD []).getD i 0
  else if cs.left.isSome ∧ j = maxIdx ∧ i < size then (cs.left.getD []).getD i 0
  else if cs.bottom.isSome ∧ i = maxIdx ∧ j < size then (cs.bottom.getD []).getD j 0
  else if cs.top.isSome ∧ i = 0 ∧ j < size then (cs.top.getD []).getD j 0
  else orig

theorem forceEdges_spec (m : HeightMap) (cs : Constraints) (size maxIdx : ℕ)
    (hG : GoodMap size m) (hsize : size = maxIdx + 1) :
    ∃ m', forceEdges m cs size maxIdx = .ok m' ∧ GoodMap size m' ∧
      ∀ i j, cellAt m' i j = forcedValue cs size maxIdx (cellAt m i j) i j := by
  have stageRow : ∀ (o : Option (List ℚ)) (r' : ℕ) (m : HeightMap),
      GoodMap size m → r' < size →
      ∃ m', writeRowIf m size r' o = .ok m' ∧ GoodMap size m' ∧
        ∀ i j, cellAt m' i j =
          if o.isSome ∧ i = r' ∧ j < size then (o.getD []).getD j 0
          else cellAt m i j := by
    intro o r' m hGm hr'
    cases o with
    | none =>
      refine ⟨m, rfl, hGm, ?_⟩
      
      intro i j
      simp
    | some t =>
      obtain ⟨m', hm', hG', hcell⟩ := writeRow_spec m size r' t hGm hr'
      refine ⟨m', hm', hG', ?_⟩
      intro i j
      rw [hcell i j]
      by_cases h : i = r' ∧ j < size
      · rw [if_pos h, if_pos ⟨by simp, h.1, h.2⟩]
        simp
      · rw [if_neg h, if_neg (fun hh => h ⟨hh.2.1, hh.2.2⟩)]
  have stageCol : ∀ (o : Option (List ℚ)) (c : ℕ) (m : HeightMap),
      GoodMap size m → c < size →
      ∃ m', writeColIf m size c o = .ok m' ∧ GoodMap size m' ∧
        ∀ i j, cellAt m' i j =
          if o.isSome ∧ j = c ∧ i < size then (o.getD []).getD i 0
          else cellAt m i j := by
    intro o c m hGm hc
    cases o with
    | none =>
      refine ⟨m, rfl, hGm, ?_⟩
      intro i j
      simp
    | some t =>
      obtain ⟨m', hm', hG', hcell⟩ := writeCol_spec m size c t hGm hc
      refine ⟨m', hm', hG', ?_⟩
      intro i j
      rw [hcell i j]
      by_cases h : j = c ∧ i < size
      · rw [if_pos h, if_pos ⟨by simp, h.1, h.2⟩]
        simp
      · rw [if_neg h, if_neg (fun hh => h ⟨hh.2.1, hh.2.2⟩)]
  obtain ⟨m1, h1, hG1, hc1⟩ := stageRow cs.top 0 m hG (by omega)
  obtain ⟨m2, h2, hG2, hc2⟩ := stageRow cs.bottom maxIdx m1 hG1 (by omega)
  obtain ⟨m3, h3, hG3, hc3⟩ := stageCol cs.left maxIdx m2 hG2 (by omega)
  obtain ⟨m4, h4, hG4, hc4⟩ := stageCol cs.right 0 m3 hG3 (by omega)
  refine ⟨m4, ?_, hG4, ?_⟩
  · simp only [forceEdges, h1, bindOk, h2, h3, h4]
  · intro i j
    rw [hc4 i j, hc3 i j, hc2 i j, hc1 i j, forcedValue]

/-- Master lemma for `generateTerrain`: it always returns (never throws a
`TypeError`), the result is a square `(2^detail+1)`-map, and each returned
cell is the post-smoothing cell value overridden by the final constraint
re-imposition as described by `forcedValue`. -/
theorem generateTerrain_spec (detail : ℕ) (roughness : ℚ) (cs : Constraints)
    (rng : ℕ → ℚ) (ctr : ℕ) :
    ∃ (st' : GenState) (smoothed : HeightMap),
      generateTerrain detail roughness cs rng ctr = .ok st' ∧
      GoodMap (2 ^ detail + 1) st'.map ∧ GoodMap (2 ^ detail + 1) smoothed ∧
      ∀ i j, cellAt st'.map i j =
        forcedValue cs (2 ^ detail + 1) (2 ^ detail) (cellAt smoothed i j) i j := by
  have hG0 : GoodMap (2 ^ detail + 1)
      (List.replicate (2 ^ detail + 1) (List.replicate (2 ^ detail + 1) (0 : ℚ))) :=
    goodMap_replicate _
  obtain ⟨st1, hs1, hG1⟩ := seedCorners_ok rng
    (roughness * ((2 ^ detail + 1 : ℕ) : ℚ) / 2) cs (2 ^ detail)
    (⟨List.replicate (2 ^ detail + 1) (List.replicate (2 ^ detail + 1) 0), ctr⟩ : GenState) hG0
  obtain ⟨st2, hs2, hG2⟩ := divide_ok rng roughness cs detail st1 hG1
  have hlen2 : st2.map.length = 2 ^ detail + 1 := hG2.1
  obtain ⟨smoothed, hsm, hGsm⟩ := median3Filter_ok st2.map
    (by rw [hlen2]; have := Nat.pos_pow_of_pos detail (by omega : 0 < 2); omega)
  rw [hlen2] at hGsm
  obtain ⟨final, hf, hGf, hcf⟩ := forceEdges_spec smoothed cs (2 ^ detail + 1)
    (2 ^ detail) hGsm (by omega)
  refine ⟨⟨final, st2.ctr⟩, smoothed, ?_, hGf, hGsm, hcf⟩
  simp only [generateTerrain, Nat.add_sub_cancel]
  simp only [hs1, bindOk, hs2, hsm, hf]
  rfl

/-! ## Chunk-store lemmas -/

/-- Generating a missing chunk: the store gains exactly one entry, a 33×33
heightfield whose cells are described by `forcedValue` over the edges
extracted from the four axis-neighbours present in the store. -/
theorem addTerrainChunk_gen (rng : ℕ → ℚ) (st : SimState) (x y : ℤ)
    (habs : st.chunkHeights (x, y) = none) :
    ∃ (st' : SimState) (B smoothed : HeightMap),
      addTerrainChunk rng st x y = .ok st' ∧
      st'.chunkHeights = (fun k => if k = (x, y) then some B else st.chunkHeights k) ∧
      GoodMap 33 B ∧
      ∀ i j, cellAt B i j =
        forcedValue
          ⟨(st.chunkHeights (x, y + 1)).map extractBottom,
           (st.chunkHeights (x, y - 1)).map extractTop,
           (st.chunkHeights (x - 1, y)).map extractRight,
           (st.chunkHeights (x + 1, y)).map extractLeft⟩
          33 32 (cellAt smoothed i j) i j := by
  obtain ⟨g, smoothed, hgen, hGg, _, hcell⟩ := generateTerrain_spec 5 5
    ⟨(st.chunkHeights (x, y + 1)).map extractBottom,
     (st.chunkHeights (x, y - 1)).map extractTop,
     (st.chunkHeights (x - 1, y)).map extractRight,
     (st.chunkHeights (x + 1, y)).map extractLeft⟩ rng st.ctr
  have h33 : (2 : ℕ) ^ 5 + 1 = 33 := by norm_num
  have h32 : (2 : ℕ) ^ 5 = 32 := by norm_num
  refine ⟨⟨fun k => if k = (x, y) then some g.map else st.chunkHeights k, g.ctr⟩,
    g.map, smoothed, ?_, rfl, by rw [← h33]; exact hGg, ?_⟩
  · simp only [addTerrainChunk, habs, hgen]
  · intro i j
    rw [← h33, ← h32]
    exact hcell i j

/-- `addTerrainChunk` always succeeds, makes its target present, and keeps
every existing entry untouched. -/
theorem addTerrainChunk_ok (rng : ℕ → ℚ) (st : SimState) (x y : ℤ) :
    ∃ st', addTerrainChunk rng st x y = .ok st' ∧
      (st'.chunkHeights (x, y)).isSome ∧
      ∀ k h, st.chunkHeights k = some h → st'.chunkHeights k = some h := by
  cases hxy : st.chunkHeights (x, y) with
  | some A =>
    refine ⟨st, ?_, ?_, ?_⟩
    · simp only [addTerrainChunk, hxy]
    · rw [hxy]
      rfl
    · intro k h hk
      exact hk
  | none =>
    obtain ⟨st', B, smoothed, hok, hupd, _, _⟩ := addTerrainChunk_gen rng st x y hxy
    refine ⟨st', hok, ?_, ?_⟩
    · rw [hupd]
      simp
    · intro k h hk
      by_cases hkxy : k = (x, y)
      · rw [hkxy] at hk
        rw [hk] at hxy
        exact absurd hxy (by simp)
      · simp only [hupd]
        rw [if_neg hkxy]
        exact hk

/-- After the fold over the neighbour directions, every direction that was
in the list is present, and existing entries survive. -/
theorem addChunk_fold_ok (rng : ℕ → ℚ) (x y : ℤ) :
    ∀ (l : List (ℤ × ℤ)) (st : SimState),
      ∃ st', (l.foldlM (fun st d => addTerrainChunk rng st (x + d.1) (y + d.2)) st) = .ok st' ∧
        (∀ k h, st.chunkHeights k = some h → st'.chunkHeights k = some h) ∧
        ∀ d ∈ l, (st'.chunkHeights (x + d.1, y + d.2)).isSome := by
  intro l
  induction l with
  | nil =>
    intro st
    exact ⟨st, rfl, fun k h hk => hk, fun d hd => absurd hd (List.not_mem_nil d)⟩
  | cons d l ih =>
    intro st
    obtain ⟨st1, h1, hsome1, hpres1⟩ := addTerrainChunk_ok rng st (x + d.1) (y + d.2)
    obtain ⟨st2, h2, hpres2, hmem2⟩ := ih st1
    refine ⟨st2, ?_, ?_, ?_⟩
    · rw [List.foldlM_cons, h1]
      exact h2
    · intro k h hk
      exact hpres2 k h (hpres1 k h hk)
    · intro e he
      rcases List.mem_cons.mp he with rfl | he'
      · obtain ⟨A, hA⟩ := Option.isSome_iff_exists.mp hsome1
        rw [hpres2 _ _ hA]
        rfl
      · exact hmem2 e he'

/-- `generateNeighboringChunks` always succeeds and afterwards all nine
chunks of the 3×3 neighbourhood are present (and old entries survive). -/
theorem generateNeighboringChunks_ok (rng : ℕ → ℚ) (st : SimState) (x y : ℤ) :
    ∃ st', generateNeighboringChunks rng st x y = .ok st' ∧
      (∀ k h, st.chunkHeights k = some h → st'.chunkHeights k = some h) ∧
      ∀ d ∈ neighborDirections, (st'.chunkHeights (x + d.1, y + d.2)).isSome := by
  obtain ⟨st1, h1, _, hpres1⟩ := addTerrainChunk_ok rng st x y
  obtain ⟨st2, h2, hpres2, hmem2⟩ := addChunk_fold_ok rng x y neighborDirections st1
  refine ⟨st2, ?_, ?_, hmem2⟩
  · simp only [generateNeighboringChunks, h1, bindOk]
    exact h2
  · intro k h hk
    exact hpres2 k h (hpres1 k h hk)

/-! ## Edge extraction vs. cells -/

theorem length_extractRight (g : HeightMap) : (extractRight g).length = g.length := by
  simp [extractRight]

theorem length_extractLeft (g : HeightMap) : (extractLeft g).length = g.length := by
  simp [extractLeft]

theorem extractRight_getD (g : HeightMap) (i : ℕ) (hi : i < g.length) :
    (extractRight g).getD i 0 = cellAt g i 0 := by
  rw [extractRight, cellAt, List.getD_eq_getElem?_getD, List.getElem?_map,
    List.getElem?_eq_getElem hi, List.getD_eq_getElem g [] hi]
  rfl

theorem extractLeft_getD (g : HeightMap) (size : ℕ) (hG : GoodMap size g)
    (i : ℕ) (hi : i < size) :
    (extractLeft g).getD i 0 = cellAt g i (size - 1) := by
  have hig : i < g.length := by
    have := hG.1
    omega
  have hrow : (g[i]).length = size := hG.2 _ (List.getElem_mem hig)
  rw [extractLeft, cellAt, List.getD_eq_getElem?_getD, List.getElem?_map,
    List.getElem?_eq_getElem hig, List.getD_eq_getElem g [] hig]
  show (g[i]).getD ((g[i]).length - 1) 0 = (g[i]).getD (size - 1) 0
  rw [hrow]

theorem extractTop_getD (g : HeightMap) (j : ℕ) :
    (extractTop g).getD j 0 = cellAt g 0 j := rfl

theorem extractBottom_getD (g : HeightMap) (j : ℕ) :
    (extractBottom g).getD j 0 = cellAt g (g.length - 1) j := rfl

theorem list_ext_getD {l1 l2 : List ℚ} (hlen : l1.length = l2.length)
    (h : ∀ i, i < l1.length → l1.getD i 0 = l2.getD i 0) : l1 = l2 := by
  apply List.ext_getElem hlen
  intro i h1 h2
  have := h i h1
  rwa [List.getD_eq_getElem l1 0 h1, List.getD_eq_getElem l2 0 h2] at this

/-! ## Claim theorems -/

/-- C7: requesting a chunk at a coordinate already present in the store is a
no-op — the call returns the very same store state (same heightfield, not
regenerated or overwritten) — and any `addTerrainChunk` call leaves every
existing entry exactly as it was (entries are never mutated or removed). -/
theorem C7_chunk_request_idempotent (rng : ℕ → ℚ) (st : SimState) (x y : ℤ) :
    ((st.chunkHeights (x, y)).isSome → addTerrainChunk rng st x y = .ok st) ∧
    ∀ st', addTerrainChunk rng st x y = .ok st' →
      ∀ k h, st.chunkHeights k = some h → st'.chunkHeights k = some h := by
  constructor
  · intro hsome
    obtain ⟨A, hA⟩ := Option.isSome_iff_exists.mp hsome
    simp only [addTerrainChunk, hA]
  · intro st' hok k h hk
    obtain ⟨st2, hok2, _, hpres⟩ := addTerrainChunk_ok rng st x y
    rw [hok] at hok2
    cases hok2
    exact hpres k h hk

/-- Witness for C7 at a concrete one-chunk store. -/
theorem C7_chunk_request_idempotent_witness :
    addTerrainChunk rngZero
      ⟨fun k => if k = ((0 : ℤ), (0 : ℤ)) then some [[5]] else none, 0⟩ 0 0 =
    .ok ⟨fun k => if k = ((0 : ℤ), (0 : ℤ)) then some [[5]] else none, 0⟩ :=
  (C7_chunk_request_idempotent rngZero
    ⟨fun k => if k = ((0 : ℤ), (0 : ℤ)) then some [[5]] else none, 0⟩ 0 0).1 (by decide)

/-- C8: one call to `generateNeighboringChunks(x, y)` ensures all nine
coordinates `(x+dx, y+dy)`, `dx, dy ∈ {-1,0,1}`, are present in the store;
the computation is, definitionally, the centre chunk first followed by the
neighbours in the fixed `neighborDirections` order. -/
theorem C8_neighborhood_complete (rng : ℕ → ℚ) (st : SimState) (x y dx dy : ℤ)
    (hdx : dx = -1 ∨ dx = 0 ∨ dx = 1) (hdy : dy = -1 ∨ dy = 0 ∨ dy = 1) :
    (generateNeighboringChunks rng st x y = ((addTerrainChunk rng st x y).bind
      (fun st1 => neighborDirections.foldlM
        (fun s d => addTerrainChunk rng s (x + d.1) (y + d.2)) st1))) ∧
    ∃ st', generateNeighboringChunks rng st x y = .ok st' ∧
      (st'.chunkHeights (x + dx, y + dy)).isSome := by
  constructor
  · rfl
  · obtain ⟨st', hok, _, hmem⟩ := generateNeighboringChunks_ok rng st x y
    refine ⟨st', hok, ?_⟩
    have hd : (dx, dy) ∈ neighborDirections := by
      rcases hdx with rfl | rfl | rfl <;> rcases hdy with rfl | rfl | rfl <;> decide
    exact hmem (dx, dy) hd

/-- Witness for C8 from the empty store at `(0,0)`, direction `(1,-1)`. -/
theorem C8_neighborhood_complete_witness :
    ∃ st', generateNeighboringChunks rngZero ⟨fun _ => none, 0⟩ 0 0 = .ok st' ∧
      (st'.chunkHeights ((0 : ℤ) + 1, (0 : ℤ) + -1)).isSome :=
  (C8_neighborhood_complete rngZero ⟨fun _ => none, 0⟩ 0 0 1 (-1)
    (by decide) (by decide)).2

/-- C4: for every `detail ≥ 1` and every constraint set (and every random
stream), `generateTerrain` returns a square 2-D array of side exactly
`2^detail + 1`: the outer array has that many rows and every row has that
same length, with every cell carrying a (rational) value — the
`Float32Array` rows are fully allocated and initialised, which the total
`ℚ`-valued rows model. -/
theorem C4_returns_square_heightfield (detail : ℕ) (hd : 1 ≤ detail)
    (roughness : ℚ) (cs : Constraints) (rng : ℕ → ℚ) (ctr : ℕ) :
    ∃ st', generateTerrain detail roughness cs rng ctr = .ok st' ∧
      st'.map.length = 2 ^ detail + 1 ∧
      ∀ row ∈ st'.map, row.length = 2 ^ detail + 1 := by
  obtain ⟨st', smoothed, hok, hG, _, _⟩ :=
    generateTerrain_spec detail roughness cs rng ctr
  exact ⟨st', hok, hG.1, hG.2⟩

/-- Witness for C4 at `detail = 1`. -/
theorem C4_returns_square_heightfield_witness :
    ∃ st', generateTerrain 1 1 ⟨none, none, none, none⟩ rngZero 0 = .ok st' ∧
      st'.map.length = 2 ^ 1 + 1 ∧ ∀ row ∈ st'.map, row.length = 2 ^ 1 + 1 :=
  C4_returns_square_heightfield 1 (by decide) 1 ⟨none, none, none, none⟩ rngZero 0

/-- C3 counterexample: `generateTerrain` performs no argument validation.
At `detail = 0` **and** `roughness = 0` — inputs the claim says must fail
with an InvalidArgument condition, with no heightfield returned — the call
completes normally and returns a 2×2 heightfield. -/
theorem C3_counterexample_no_validation :
    ∃ st', generateTerrain 0 0 ⟨none, none, none, none⟩ rngZero 0 = .ok st' ∧
      st'.map.length = 2 := by
  obtain ⟨st', smoothed, hok, hG, _, _⟩ :=
    generateTerrain_spec 0 0 ⟨none, none, none, none⟩ rngZero 0
  exact ⟨st', hok, hG.1⟩

/-- C3 (amended): `generateTerrain` has no InvalidArgument check at all:
for **every** `detail ≥ 0`, every `roughness` (including `≤ 0`), every
constraint set (of any lengths) and every random stream, it runs to
completion and returns a heightfield of side `2^detail + 1`.  (A negative
`detail` — not expressible here, where `detail : ℕ` — would abort with a
JS `RangeError` from `new Array(1.5)`, which is a crash, not a surfaced
InvalidArgument condition.) -/
theorem C3_amended_never_fails (detail : ℕ) (roughness : ℚ) (cs : Constraints)
    (rng : ℕ → ℚ) (ctr : ℕ) :
    ∃ st', generateTerrain detail roughness cs rng ctr = .ok st' ∧
      st'.map.length = 2 ^ detail + 1 := by
  obtain ⟨st', smoothed, hok, hG, _, _⟩ :=
    generateTerrain_spec detail roughness cs rng ctr
  exact ⟨st', hok, hG.1⟩

/-- C9: at `detail = 1` (a 3×3 grid), for any roughness, any random stream
and any combination of length-3 constraints, `generateTerrain` runs to
completion — corner seeding, the single subdivision pass (`divide(2)`
recurses once into `divide(1)`, which returns at once), the median filter
and the edge re-imposition — returning `.ok`.  In this embedding `.error`
is exactly a JS `TypeError` from indexing a missing row, so `.ok` states
that no array access ever dereferences a row outside the 3×3 grid;
within-row out-of-range reads yield the `undefined` value (`none`), which
`filterUndefined` inside `average` discards. -/
theorem C9_detail1_no_out_of_bounds (roughness : ℚ) (cs : Constraints)
    (rng : ℕ → ℚ) (ctr : ℕ)
    (ht : ∀ t, cs.top = some t → t.length = 3)
    (hb : ∀ t, cs.bottom = some t → t.length = 3)
    (hl : ∀ t, cs.left = some t → t.length = 3)
    (hr : ∀ t, cs.right = some t → t.length = 3) :
    ∃ st', generateTerrain 1 roughness cs rng ctr = .ok st' ∧
      st'.map.length = 3 ∧ ∀ row ∈ st'.map, row.length = 3 := by
  obtain ⟨st', smoothed, hok, hG, _, _⟩ :=
    generateTerrain_spec 1 roughness cs rng ctr
  exact ⟨st', hok, hG.1, hG.2⟩

/-- Witness for C9 with all four edges constrained by length-3 vectors. -/
theorem C9_detail1_no_out_of_bounds_witness :
    ∃ st', generateTerrain 1 1
        ⟨some [1, 2, 3], some [4, 5, 6], some [7, 8, 9], some [10, 11, 12]⟩
        rngZero 0 = .ok st' ∧
      st'.map.length = 3 ∧ ∀ row ∈ st'.map, row.length = 3 :=
  C9_detail1_no_out_of_bounds 1
    ⟨some [1, 2, 3], some [4, 5, 6], some [7, 8, 9], some [10, 11, 12]⟩ rngZero 0
    (fun t h => by cases h; rfl) (fun t h => by cases h; rfl)
    (fun t h => by cases h; rfl) (fun t h => by cases h; rfl)

/-- C1 counterexample: with `top = [1,1,1]` and `right = [2,2,2]` both
constrained at `detail = 1`, the returned cell `[0][0]` — which lies on the
constrained top edge at index 0 — is `2` (the `right` edge's value, written
last), not `top[0] = 1`: the top edge is **not** returned bit-exact at every
index. -/
theorem C1_counterexample_top_edge_corner :
    ((generateTerrain 1 1 ⟨some [1, 1, 1], none, none, some [2, 2, 2]⟩
        rngZero 0).toOption.map (fun g => cellAt g.map 0 0)) = some 2 ∧
    (2 : ℚ) ≠ ([1, 1, 1] : List ℚ).getD 0 0 := by
  constructor
  · decide
  · decide

/-- C1 (amended): the `left` and `right` constrained edges are returned
bit-exact at every index; a `top` (resp. `bottom`) constrained edge is
returned bit-exact at every index except that its two corner cells are
overwritten when the perpendicular column constraint is also present
(`right` owns column 0, `left` owns column `max`, because the final
re-imposition runs in order top, bottom, left, right and the later write
wins).  In particular, when at most one edge is constrained — e.g. the
chunk-A-to-chunk-B seam round-trip — the constrained edge is bit-exact at
every index, for every random stream. -/
theorem C1_amended_constrained_edges (detail : ℕ) (roughness : ℚ)
    (cs : Constraints) (rng : ℕ → ℚ) (ctr : ℕ) :
    ∃ st', generateTerrain detail roughness cs rng ctr = .ok st' ∧
      (∀ rt, cs.right = some rt → ∀ i, i < 2 ^ detail + 1 →
        cellAt st'.map i 0 = rt.getD i 0) ∧
      (∀ lt, cs.left = some lt → ∀ i, i < 2 ^ detail + 1 →
        cellAt st'.map i (2 ^ detail) = lt.getD i 0) ∧
      (∀ t, cs.top = some t → ∀ j, j < 2 ^ detail + 1 →
        (j = 0 → cs.right = none) → (j = 2 ^ detail → cs.left = none) →
        cellAt st'.map 0 j = t.getD j 0) ∧
      (∀ bt, cs.bottom = some bt → ∀ j, j < 2 ^ detail + 1 →
        (j = 0 → cs.right = none) → (j = 2 ^ detail → cs.left = none) →
        cellAt st'.map (2 ^ detail) j = bt.getD j 0) := by
  obtain ⟨st', smoothed, hok, _, _, hcell⟩ :=
    generateTerrain_spec detail roughness cs rng ctr
  have hmax : 0 < 2 ^ detail := Nat.pos_pow_of_pos detail (by omega)
  refine ⟨st', hok, ?_, ?_, ?_, ?_⟩
  · intro rt hrt i hi
    rw [hcell i 0, forcedValue, if_pos ⟨by rw [hrt]; rfl, rfl, hi⟩, hrt]
    rfl
  · intro lt hlt i hi
    rw [hcell i (2 ^ detail), forcedValue,
      if_neg (fun hh => absurd hh.2.1 (by omega)),
      if_pos ⟨by rw [hlt]; rfl, rfl, hi⟩, hlt]
    rfl
  · intro t ht j hj hr0 hlm
    rw [hcell 0 j, forcedValue,
      if_neg (fun hh => by rw [hr0 hh.2.1] at hh; exact absurd hh.1 (by simp)),
      if_neg (fun hh => by rw [hlm hh.2.1] at hh; exact absurd hh.1 (by simp)),
      if_neg (fun hh => absurd hh.2.1 (by omega)),
      if_pos ⟨by rw [ht]; rfl, rfl, hj⟩, ht]
    rfl
  · intro bt hbt j hj hr0 hlm
    rw [hcell (2 ^ detail) j, forcedValue,
      if_neg (fun hh => by rw [hr0 hh.2.1] at hh; exact absurd hh.1 (by simp)),
      if_neg (fun hh => by rw [hlm hh.2.1] at hh; exact absurd hh.1 (by simp)),
      if_pos ⟨by rw [hbt]; rfl, rfl, hj⟩, hbt]
    rfl

/-- Witness for the amended C1: with `right = [2,2,2]` constrained, the
returned column 0 matches it, e.g. at index 1. -/
theorem C1_amended_constrained_edges_witness :
    ∃ st', generateTerrain 1 1 ⟨some [1, 1, 1], none, none, some [2, 2, 2]⟩
        rngZero 0 = .ok st' ∧ cellAt st'.map 1 0 = 2 := by
  obtain ⟨st', hok, hrt, _, _, _⟩ := C1_amended_constrained_edges 1 1
    ⟨some [1, 1, 1], none, none, some [2, 2, 2]⟩ rngZero 0
  refine ⟨st', hok, ?_⟩
  have h := hrt [2, 2, 2] rfl 1 (by omega)
  simpa using h

/-- C10: the final constraint re-imposition writes the four edges in the
fixed order top, bottom, left, right, each over its whole row/column
including the shared corner cells; hence whenever the column constraints
are present they determine the returned corner values: `right` determines
`[0][0]` and `[max][0]` regardless of `top`/`bottom`, and `left` determines
`[0][max]` and `[max][max]` — e.g. with both `top` and `right` provided and
`top[0] ≠ right[0]`, the returned `[0][0]` equals `right[0]`. -/
theorem C10_reimposition_order (detail : ℕ) (roughness : ℚ) (cs : Constraints)
    (rng : ℕ → ℚ) (ctr : ℕ) :
    ∃ st', generateTerrain detail roughness cs rng ctr = .ok st' ∧
      (∀ rt, cs.right = some rt →
        cellAt st'.map 0 0 = rt.getD 0 0 ∧
        cellAt st'.map (2 ^ detail) 0 = rt.getD (2 ^ detail) 0) ∧
      (∀ lt, cs.left = some lt →
        cellAt st'.map 0 (2 ^ detail) = lt.getD 0 0 ∧
        cellAt st'.map (2 ^ detail) (2 ^ detail) = lt.getD (2 ^ detail) 0) := by
  obtain ⟨st', smoothed, hok, _, _, hcell⟩ :=
    generateTerrain_spec detail roughness cs rng ctr
  have hmax : 0 < 2 ^ detail := Nat.pos_pow_of_pos detail (by omega)
  refine ⟨st', hok, ?_, ?_⟩
  · intro rt hrt
    constructor
    · rw [hcell 0 0, forcedValue, if_pos ⟨by rw [hrt]; rfl, rfl, by omega⟩, hrt]
      rfl
    · rw [hcell (2 ^ detail) 0, forcedValue,
        if_pos ⟨by rw [hrt]; rfl, rfl, by omega⟩, hrt]
      rfl
  · intro lt hlt
    constructor
    · rw [hcell 0 (2 ^ detail), forcedValue,
        if_neg (fun hh => absurd hh.2.1 (by omega)),
        if_pos ⟨by rw [hlt]; rfl, rfl, by omega⟩, hlt]
      rfl
    · rw [hcell (2 ^ detail) (2 ^ detail), forcedValue,
        if_neg (fun hh => absurd hh.2.1 (by omega)),
        if_pos ⟨by rw [hlt]; rfl, rfl, by omega⟩, hlt]
      rfl

/-- Witness for C10: concrete `top`/`right` conflict at the shared corner;
the returned `[0][0]` equals `right[0] = 2`. -/
theorem C10_reimposition_order_witness :
    ∃ st', generateTerrain 1 1 ⟨some [1, 1, 1], none, none, some [2, 2, 2]⟩
        rngZero 0 = .ok st' ∧ cellAt st'.map 0 0 = 2 := by
  obtain ⟨st', hok, hrt, _⟩ := C10_reimposition_order 1 1
    ⟨some [1, 1, 1], none, none, some [2, 2, 2]⟩ rngZero 0
  refine ⟨st', hok, ?_⟩
  have h := (hrt [2, 2, 2] rfl).1
  simpa using h

/-- C2 (amended): the seam relation the store actually establishes is the
mirror image of the claimed one.  Whenever the second of two axis-adjacent
chunks is generated with the edge-matching constraint taken from the first:

* horizontally, the **left** edge (last column, `extractLeft`) of the chunk
  at `(x+1, y)` equals the **right** edge (first column, `extractRight`) of
  the chunk at `(x, y)` — in both generation orders, unconditionally;
* vertically, the **top** edge (`extractTop`, first row) of `(x, y)` equals
  the **bottom** edge (`extractBottom`, last row) of `(x, y+1)`; for the
  full edge including its two corner cells this needs the second chunk's
  column-edge neighbours to be absent at generation time, since a
  simultaneously applied `left`/`right` constraint overwrites the shared
  corner cell afterwards. -/
theorem C2_amended_store_seam (rng : ℕ → ℚ) (st : SimState) (x y : ℤ) :
    (∀ A st', st.chunkHeights (x, y) = some A → GoodMap 33 A →
      st.chunkHeights (x + 1, y) = none →
      addTerrainChunk rng st (x + 1) y = .ok st' →
      ∃ B, st'.chunkHeights (x + 1, y) = some B ∧
        extractLeft B = extractRight A) ∧
    (∀ A st', st.chunkHeights (x + 1, y) = some A → GoodMap 33 A →
      st.chunkHeights (x, y) = none →
      addTerrainChunk rng st x y = .ok st' →
      ∃ B, st'.chunkHeights (x, y) = some B ∧
        extractRight B = extractLeft A) ∧
    (∀ A st', st.chunkHeights (x, y + 1) = some A → GoodMap 33 A →
      st.chunkHeights (x, y) = none →
      st.chunkHeights (x + 1, y) = none → st.chunkHeights (x - 1, y) = none →
      addTerrainChunk rng st x y = .ok st' →
      ∃ B, st'.chunkHeights (x, y) = some B ∧
        extractTop B = extractBottom A) ∧
    (∀ A st', st.chunkHeights (x, y) = some A → GoodMap 33 A →
      st.chunkHeights (x, y + 1) = none →
      st.chunkHeights (x + 1, y + 1) = none →
      st.chunkHeights (x - 1, y + 1) = none →
      addTerrainChunk rng st x (y + 1) = .ok st' →
      ∃ B, st'.chunkHeights (x, y + 1) = some B ∧
        extractBottom B = extractTop A) := by
  refine ⟨?_, ?_, ?_, ?_⟩
  · intro A st' hA hGA habs hok
    obtain ⟨st2, B, smoothed, hok2, hupd, hGB, hcell⟩ :=
      addTerrainChunk_gen rng st (x + 1) y habs
    rw [hok] at hok2
    cases hok2
    have hx1 : (x + 1 - 1 : ℤ) = x := by ring
    rw [hx1, hA] at hcell
    refine ⟨B, ?_, ?_⟩
    · rw [hupd]
      simp
    · apply list_ext_getD
      · rw [length_extractLeft, length_extractRight, hGB.1, hGA.1]
      · intro i hi
        rw [length_extractLeft, hGB.1] at hi
        rw [extractLeft_getD B 33 hGB i hi]
        show cellAt B i 32 = _
        rw [hcell i 32, forcedValue,
          if_neg (fun hh => absurd hh.2.1 (by omega)),
          if_pos ⟨rfl, rfl, by omega⟩]
        rfl
  · intro A st' hA hGA habs hok
    obtain ⟨st2, B, smoothed, hok2, hupd, hGB, hcell⟩ :=
      addTerrainChunk_gen rng st x y habs
    rw [hok] at hok2
    cases hok2
    rw [hA] at hcell
    refine ⟨B, ?_, ?_⟩
    · rw [hupd]
      simp
    · apply list_ext_getD
      · rw [length_extractRight, length_extractLeft, hGB.1, hGA.1]
      · intro i hi
        rw [length_extractRight, hGB.1] at hi
        rw [extractRight_getD B i (by rw [hGB.1]; omega)]
        rw [hcell i 0, forcedValue, if_pos ⟨rfl, rfl, by omega⟩]
        rfl
  · intro A st' hA hGA habs habsR habsL hok
    obtain ⟨st2, B, smoothed, hok2, hupd, hGB, hcell⟩ :=
      addTerrainChunk_gen rng st x y habs
    rw [hok] at hok2
    cases hok2
    rw [hA, habsR, habsL] at hcell
    refine ⟨B, ?_, ?_⟩
    · rw [hupd]
      simp
    · apply list_ext_getD
      · show (B.getD 0 []).length = (A.getD (A.length - 1) []).length
        rw [rowLen_of_good 33 B 0 hGB (by omega),
          rowLen_of_good 33 A (A.length - 1) hGA (by have := hGA.1; omega)]
      · intro j hj
        have hj33 : j < 33 := by
          have := rowLen_of_good 33 B 0 hGB (by omega : (0 : ℕ) < 33)
          show j < 33
          rw [← this]
          exact hj
        rw [extractTop_getD B j, hcell 0 j, forcedValue,
          if_neg (fun hh => by simp at hh),
          if_neg (fun hh => by simp at hh),
          if_neg (fun hh => absurd hh.2.1 (by omega)),
          if_pos ⟨rfl, rfl, hj33⟩]
        rfl
  · intro A st' hA hGA habs habsR habsL hok
    obtain ⟨st2, B, smoothed, hok2, hupd, hGB, hcell⟩ :=
      addTerrainChunk_gen rng st x (y + 1) habs
    rw [hok] at hok2
    cases hok2
    have hy1 : (y + 1 - 1 : ℤ) = y := by ring
    rw [hy1, hA, habsR, habsL] at hcell
    refine ⟨B, ?_, ?_⟩
    · rw [hupd]
      simp
    · apply list_ext_getD
      · show (B.getD (B.length - 1) []).length = (A.getD 0 []).length
        rw [rowLen_of_good 33 B (B.length - 1) hGB (by have := hGB.1; omega),
          rowLen_of_good 33 A 0 hGA (by omega)]
      · intro j hj
        have hj33 : j < 33 := by
          have := rowLen_of_good 33 B (B.length - 1) hGB (by have := hGB.1; omega)
          show j < 33
          rw [← this]
          exact hj
        rw [extractBottom_getD B j, hGB.1]
        show cellAt B 32 j = _
        rw [hcell 32 j, forcedValue,
          if_neg (fun hh => by simp at hh),
          if_neg (fun hh => by simp at hh),
          if_pos ⟨rfl, rfl, hj33⟩]
        rfl

/-- A flat all-zero 33×33 chunk (a well-formed stored heightfield). -/
def zeroChunk : HeightMap := List.replicate 33 (List.replicate 33 0)

/-- A flat 33×33 chunk of sevens. -/
def sevenChunk : HeightMap := List.replicate 33 (List.replicate 33 7)

/-- A store holding one chunk, at `(0, 0)`. -/
def storeOne : SimState :=
  ⟨fun k => if k = ((0 : ℤ), (0 : ℤ)) then some zeroChunk else none, 0⟩

/-- A store holding chunks at `(0, 0)` and `(2, 0)`. -/
def storeTwo : SimState :=
  ⟨fun k =>
    if k = ((0 : ℤ), (0 : ℤ)) then some zeroChunk
    else if k = ((2 : ℤ), (0 : ℤ)) then some sevenChunk
    else none, 0⟩

/-- C2 counterexample: starting from a store holding chunks at `(0,0)` and
`(2,0)`, generate the chunk at `(1,0)` (which is constrained against both,
so the edge-matching constraint is certainly applied for the
second-generated member of the pair `(0,0)`/`(1,0)`).  Both `(0,0)` and
`(1,0)` are then present, yet the **right** edge (first column) of `(1,0)`
is the one forced from `(2,0)`'s last column — all sevens — while the
**left** edge (last column) of `(0,0)` is all zeros: the claimed equality
`extractRight (1,0) = extractLeft (0,0)` fails (the true invariant pairs
the opposite edges, see the amended statement). -/
theorem C2_counterexample_swapped_edges :
    ∃ st' B, addTerrainChunk rngZero storeTwo 1 0 = .ok st' ∧
      st'.chunkHeights (0, 0) = some zeroChunk ∧
      st'.chunkHeights (1, 0) = some B ∧
      extractRight B ≠ extractLeft zeroChunk := by
  obtain ⟨st2, B, smoothed, hok2, hupd, hGB, hcell⟩ :=
    addTerrainChunk_gen rngZero storeTwo 1 0 (by rfl)
  refine ⟨st2, B, hok2, ?_, ?_, ?_⟩
  · rw [hupd]
    rfl
  · rw [hupd]
    simp
  · intro heq
    have h1 : (extractRight B).getD 0 0 = (extractLeft zeroChunk).getD 0 0 := by
      rw [heq]
    have h2 : (extractRight B).getD 0 0 = 7 := by
      rw [extractRight_getD B 0 (by rw [hGB.1]; omega)]
      rw [hcell 0 0, forcedValue, if_pos ⟨rfl, rfl, by omega⟩]
      decide
    have h3 : (extractLeft zeroChunk).getD 0 0 = 0 := by decide
    rw [h1, h3] at h2
    exact absurd h2 (by norm_num)

/-- Witness for the amended C2 (first conjunct) on a concrete one-chunk
store: the chunk generated at `(1, 0)` has its last column equal to the
first column of the stored chunk at `(0, 0)`. -/
theorem C2_amended_store_seam_witness :
    ∃ st' B, addTerrainChunk rngZero storeOne (0 + 1) 0 = .ok st' ∧
      st'.chunkHeights (0 + 1, 0) = some B ∧
      extractLeft B = extractRight zeroChunk := by
  obtain ⟨st', hok, _, _⟩ := addTerrainChunk_ok rngZero storeOne (0 + 1) 0
  obtain ⟨B, hB, heq⟩ := (C2_amended_store_seam rngZero storeOne 0 0).1
    zeroChunk st' rfl (goodMap_replicate 33) (by rfl) hok
  exact ⟨st', B, hok, hB, heq⟩

/-- Modelled from the spec: «the numeric median» of a list of values —
sort numerically ascending and take the middle element (or the mean of the
two middle elements for an even count).  Used only to compare the code's
`median` against the specified behaviour. -/
def specNumericMedian (l : List ℚ) : ℚ :=
  let s := sortRat l
  if l.length % 2 = 1 then s.getD ((l.length - 1) / 2) 0
  else (s.getD (l.length / 2 - 1) 0 + s.getD (l.length / 2) 0) / 2

/-- The 3×3 input exhibiting the median bug: the corner 2×2 neighbourhood
of cell `[0][0]` holds `{10, 9, 2, 3}`. -/
def medianBugSrc : HeightMap := [[10, 2, 0], [9, 3, 0], [0, 0, 0]]

unseal Rat.add Rat.mul Rat.inv Rat.sub in
/-- C5: the corner (and edge) cells of the smoothing pass do **not** get
the numeric median of their neighbourhood.  `median()` sorts with the
default `Array.prototype.sort()`, which compares *string* images, so the
corner `{10, 9, 2, 3}` sorts as `[10, 2, 3, 9]` and the code returns
`(2+3)/2 = 5/2`, while the numeric median is `(3+9)/2 = 6`.  (The interior
cells are unaffected — `block` is a `Float32Array`, whose `sort()` is
numeric — as the third conjunct illustrates on the centre cell, which does
equal the numeric median of its nine neighbours.) -/
theorem C5_median_lexicographic_sort_bug :
    ((median3Filter medianBugSrc).toOption.map (fun d => cellAt d 0 0))
        = some (5 / 2) ∧
    specNumericMedian [10, 9, 2, 3] = 6 ∧ (5 / 2 : ℚ) ≠ 6 ∧
    ((median3Filter medianBugSrc).toOption.map (fun d => cellAt d 1 1))
        = some (specNumericMedian [10, 2, 0, 9, 3, 0, 0, 0, 0]) := by
  refine ⟨by decide, by decide, by norm_num, by decide⟩

/-- The four corner writes of `seedCorners`, characterised cell-wise.  The
corners are pairwise distinct for `maxIdx > 0`, so each keeps the value it
was assigned. -/
theorem seedWrites_cells (m m1 m2 m3 m4 : HeightMap) (maxIdx : ℕ)
    (v1 v2 v3 v4 : ℚ) (hG : GoodMap (maxIdx + 1) m) (hmax : 0 < maxIdx)
    (h1 : m1 = m.set 0 ((m.getD 0 []).set 0 v1))
    (h2 : m2 = m1.set maxIdx ((m1.getD maxIdx []).set 0 v2))
    (h3 : m3 = m2.set maxIdx ((m2.getD maxIdx []).set maxIdx v3))
    (h4 : m4 = m3.set 0 ((m3.getD 0 []).set maxIdx v4)) :
    cellAt m4 0 0 = v1 ∧ cellAt m4 maxIdx 0 = v2 ∧
      cellAt m4 maxIdx maxIdx = v3 ∧ cellAt m4 0 maxIdx = v4 := by
  have hlen : m.length = maxIdx + 1 := hG.1
  have hrow0 : (m.getD 0 []).length = maxIdx + 1 :=
    rowLen_of_good _ m 0 hG (by omega)
  have hG1 : GoodMap (maxIdx + 1) m1 := by
    rw [h1]
    exact goodMap_set _ _ _ _ _ hG (by omega)
  have hG2 : GoodMap (maxIdx + 1) m2 := by
    rw [h2]
    exact goodMap_set _ _ _ _ _ hG1 (by have := hG1.1; omega)
  have hG3 : GoodMap (maxIdx + 1) m3 := by
    rw [h3]
    exact goodMap_set _ _ _ _ _ hG2 (by have := hG2.1; omega)
  have hlen1 : m1.length = maxIdx + 1 := hG1.1
  have hlen2 : m2.length = maxIdx + 1 := hG2.1
  have hlen3 : m3.length = maxIdx + 1 := hG3.1
  have hrow1m : (m1.getD maxIdx []).length = maxIdx + 1 :=
    rowLen_of_good _ m1 maxIdx hG1 (by omega)
  have hrow2m : (m2.getD maxIdx []).length = maxIdx + 1 :=
    rowLen_of_good _ m2 maxIdx hG2 (by omega)
  have hrow30 : (m3.getD 0 []).length = maxIdx + 1 :=
    rowLen_of_good _ m3 0 hG3 (by omega)
  have hne : ¬((0 : ℕ) = maxIdx) := by omega
  have hnem : ¬(maxIdx = (0 : ℕ)) := by omega
  subst h4
  refine ⟨?_, ?_, ?_, ?_⟩
  · rw [cellAt, getD_set_list, if_pos ⟨rfl, by omega⟩,
      getD_set_list, if_neg (fun hh => hne hh.1)]
    subst h3
    rw [getD_set_list, if_neg (fun hh => hne hh.1)]
    subst h2
    rw [getD_set_list, if_neg (fun hh => hne hh.1)]
    subst h1
    rw [getD_set_list, if_pos ⟨rfl, by omega⟩,
      getD_set_list, if_pos ⟨rfl, by omega⟩]
  · rw [cellAt, getD_set_list, if_neg (fun hh => hnem hh.1)]
    subst h3
    rw [getD_set_list, if_pos ⟨rfl, by omega⟩,
      getD_set_list, if_neg (fun hh => hne hh.1)]
    subst h2
    rw [getD_set_list, if_pos ⟨rfl, by omega⟩,
      getD_set_list, if_pos ⟨rfl, by omega⟩]
  · rw [cellAt, getD_set_list, if_neg (fun hh => hnem hh.1)]
    subst h3
    rw [getD_set_list, if_pos ⟨rfl, by omega⟩,
      getD_set_list, if_pos ⟨rfl, by omega⟩]
  · rw [cellAt, getD_set_list, if_pos ⟨rfl, by omega⟩,
      getD_set_list, if_pos ⟨rfl, by omega⟩]

/-- Mirror of one ternary chain of the corner-seeding block
(`edge1 ? edge1[k1] : edge2 ? edge2[k2] : rand(scale)`): the corner value
comes from the first present adjacent constrained edge — the row edge
(`top`/`bottom`) before the column edge (`right`/`left`) — and otherwise
lies in `[-scale, scale]`. -/
def cornerSeedProp (o1 o2 : Option (List ℚ)) (k1 k2 : ℕ) (scale v : ℚ) : Prop :=
  match o1, o2 with
  | some t, _ => v = t.getD k1 0
  | none, some e => v = e.getD k2 0
  | none, none => -scale ≤ v ∧ v ≤ scale
/-- C6 counterexample: the claimed precedence "top/right edges take
precedence over bottom/left at the shared corners" fails at the
bottom-right corner `[max][0]` (bottom row, column 0 — the `right`
edge's column).  With all four edges constrained, the code's
`map[max][0] = bottom ? bottom[0] : right ? right[max] : rand(scale)`
seeds that corner with `bottom[0] = 5`, whereas the claimed precedence
(`right` over `bottom`) would give `right[max] = 9`. -/
theorem C6_counterexample_bottom_right_corner :
    ((seedCorners rngZero (1 * ((2 ^ 1 + 1 : ℕ) : ℚ) / 2)
        ⟨some [7, 7, 7], some [5, 5, 5], some [8, 8, 8], some [9, 9, 9]⟩
        (2 ^ 1)
        ⟨List.replicate (2 ^ 1 + 1) (List.replicate (2 ^ 1 + 1) 0),
          0⟩).toOption.map (fun st => cellAt st.map (2 ^ 1) 0)) = some 5 ∧
      ([(9 : ℚ), 9, 9].getD (2 ^ 1) 0 = 9) ∧ (5 : ℚ) ≠ 9 := by
  refine ⟨by decide, by decide, by decide⟩

set_option maxHeartbeats 4000000 in
/-- C6 (amended): corner-seeding precedence in `generateTerrain`.  With
`scale = roughness * N / 2` (`N = 2^detail + 1`) and any square map of
side `N` (the fresh map `generateTerrain` allocates is one), the seeding
step assigns each of the four corner cells the entry of an adjacent
constrained edge when one applies, the *row* edge (`top` at row 0,
`bottom` at row `max`) taking precedence over the *column* edge (`right`
at column 0, `left` at column `max`); a corner with no applicable
constrained edge receives `rand(scale)`, a value in `[-scale, scale]`
for any `Math.random()` stream with values in `[0, 1]` and
`roughness ≥ 0`. -/
theorem C6_amended_row_edge_precedence (detail : ℕ) (roughness : ℚ)
    (cs : Constraints) (rng : ℕ → ℚ) (st : GenState)
    (hG : GoodMap (2 ^ detail + 1) st.map) (hrough : 0 ≤ roughness)
    (hrng : ∀ n, 0 ≤ rng n ∧ rng n ≤ 1) :
    ∃ st', seedCorners rng (roughness * ((2 ^ detail + 1 : ℕ) : ℚ) / 2) cs
        (2 ^ detail) st = .ok st' ∧
      cornerSeedProp cs.top cs.right 0 0
        (roughness * ((2 ^ detail + 1 : ℕ) : ℚ) / 2) (cellAt st'.map 0 0) ∧
      cornerSeedProp cs.bottom cs.right 0 (2 ^ detail)
        (roughness * ((2 ^ detail + 1 : ℕ) : ℚ) / 2)
        (cellAt st'.map (2 ^ detail) 0) ∧
      cornerSeedProp cs.bottom cs.left (2 ^ detail) (2 ^ detail)
        (roughness * ((2 ^ detail + 1 : ℕ) : ℚ) / 2)
        (cellAt st'.map (2 ^ detail) (2 ^ detail)) ∧
      cornerSeedProp cs.top cs.left (2 ^ detail) 0
        (roughness * ((2 ^ detail + 1 : ℕ) : ℚ) / 2)
        (cellAt st'.map 0 (2 ^ detail)) := by
  have hmax : 0 < 2 ^ detail := Nat.pos_pow_of_pos detail (by omega)
  have hsc : 0 ≤ roughness * ((2 ^ detail + 1 : ℕ) : ℚ) / 2 :=
    div_nonneg (mul_nonneg hrough (by positivity)) (by norm_num)
  have hBnd : ∀ n : ℕ,
      -(roughness * ((2 ^ detail + 1 : ℕ) : ℚ) / 2) ≤
        rng n * (roughness * ((2 ^ detail + 1 : ℕ) : ℚ) / 2) * 2 -
          roughness * ((2 ^ detail + 1 : ℕ) : ℚ) / 2 ∧
      rng n * (roughness * ((2 ^ detail + 1 : ℕ) : ℚ) / 2) * 2 -
          roughness * ((2 ^ detail + 1 : ℕ) : ℚ) / 2 ≤
        roughness * ((2 ^ detail + 1 : ℕ) : ℚ) / 2 := by
    intro n
    obtain ⟨h0, h1⟩ := hrng n
    constructor <;> nlinarith [hsc]
  have h0 : 0 < st.map.length := by
    have := hG.1
    omega
  have hmx : 2 ^ detail < st.map.length := by
    have := hG.1
    omega
  rcases cs with ⟨t, b, l, r⟩
  rcases t with _ | t <;> rcases b with _ | b <;> rcases l with _ | l <;>
    rcases r with _ | r <;>
  · simp only [seedCorners, randDraw, setCell, List.length_set, h0, hmx,
      if_true, bindOk]
    refine ⟨_, rfl, ?_, ?_, ?_, ?_⟩ <;>
      first
        | exact (seedWrites_cells _ _ _ _ _ _ _ _ _ _
            hG hmax rfl rfl rfl rfl).1
        | exact (seedWrites_cells _ _ _ _ _ _ _ _ _ _
            hG hmax rfl rfl rfl rfl).2.1
        | exact (seedWrites_cells _ _ _ _ _ _ _ _ _ _
            hG hmax rfl rfl rfl rfl).2.2.1
        | exact (seedWrites_cells _ _ _ _ _ _ _ _ _ _
            hG hmax rfl rfl rfl rfl).2.2.2
        | (rw [(seedWrites_cells _ _ _ _ _ _ _ _ _ _
            hG hmax rfl rfl rfl rfl).1]; exact hBnd _)
        | (rw [(seedWrites_cells _ _ _ _ _ _ _ _ _ _
            hG hmax rfl rfl rfl rfl).2.1]; exact hBnd _)
        | (rw [(seedWrites_cells _ _ _ _ _ _ _ _ _ _
            hG hmax rfl rfl rfl rfl).2.2.1]; exact hBnd _)
        | (rw [(seedWrites_cells _ _ _ _ _ _ _ _ _ _
            hG hmax rfl rfl rfl rfl).2.2.2]; exact hBnd _)

/-- The amended C6 statement at a concrete input: detail 1, roughness 1,
`top = [1, 2, 3]` and `right = [4, 5, 6]` constrained, the all-zero
`Math.random()` stream, and the fresh 3×3 zero map. -/
theorem C6_amended_row_edge_precedence_witness :
    ∃ st', seedCorners rngZero (1 * ((2 ^ 1 + 1 : ℕ) : ℚ) / 2)
        ⟨some [1, 2, 3], none, none, some [4, 5, 6]⟩ (2 ^ 1)
        ⟨List.replicate (2 ^ 1 + 1) (List.replicate (2 ^ 1 + 1) 0),
          0⟩ = .ok st' ∧
      cornerSeedProp (some [1, 2, 3]) (some [4, 5, 6]) 0 0
        (1 * ((2 ^ 1 + 1 : ℕ) : ℚ) / 2) (cellAt st'.map 0 0) ∧
      cornerSeedProp none (some [4, 5, 6]) 0 (2 ^ 1)
        (1 * ((2 ^ 1 + 1 : ℕ) : ℚ) / 2) (cellAt st'.map (2 ^ 1) 0) ∧
      cornerSeedProp none none (2 ^ 1) (2 ^ 1)
        (1 * ((2 ^ 1 + 1 : ℕ) : ℚ) / 2)
        (cellAt st'.map (2 ^ 1) (2 ^ 1)) ∧
      cornerSeedProp (some [1, 2, 3]) none (2 ^ 1) 0
        (1 * ((2 ^ 1 + 1 : ℕ) : ℚ) / 2) (cellAt st'.map 0 (2 ^ 1)) :=
  C6_amended_row_edge_precedence 1 1
    ⟨some [1, 2, 3], none, none, some [4, 5, 6]⟩ rngZero
    ⟨List.replicate (2 ^ 1 + 1) (List.replicate (2 ^ 1 + 1) 0), 0⟩
    (goodMap_replicate 3) (by norm_num)
    (fun n => ⟨le_refl 0, by simp [rngZero]⟩)

end FlightSim
